import Mathlib

/-!
# Verification development for the DAX Go client core

A shallow embedding, in Lean 4, of the parts of the `aws-dax-go-v2` client
that the specification's claims are about:

* the CBOR-like attribute-value codec (`EncodeAttributeValue`,
  `DecodeAttributeValue`, `writeStringNumber` from the `cbor` package),
* the per-node health status state machine (`enabledHealthStatus`),
* the tube-recycling decision of the execute pipeline
  (`SingleDaxClient.recycleTube`, `executeWithContext`),
* the two retry loops (`ClusterDaxClient.retry`,
  `SingleDaxClient.executeWithRetries`),
* seed endpoint parsing (`parseHostPort`, `getHostPorts`),
* the attribute-list fast paths (`defineAttributeListId`,
  `defineAttributeList`),
* roster updates (`cluster.update`, `cluster.onHealthCheckFailed`).

Pure functions are translated into Lean functions; stateful methods become
explicit state-transition functions; Go byte-stream I/O becomes a token
stream; fallible Go code returns `Except`/`Option`.  Components of the
repository whose source is not available (the raw CBOR `Writer`/`Reader`
byte layer, the `Decimal` type, the error helpers `isIOError`,
`authError`, `translateError`, `SleepWithContext`, `DaxRetryer`) are
modelled from the specification, and each such definition is marked with
`Modelled from the spec:` in its doc comment.
-/

/-! ## Decimal digit strings

Go's `strconv.ParseInt`, `big.Int.SetString` and the canonical rendering
used by `big.Int.String` / `strconv.FormatInt`, modelled over `List Char`.
-/

/-- One decimal digit character.  Out-of-range inputs map to `'0'`
(never hit by callers, which pass `n % 10`). -/
def digitChar : Nat → Char
  | 0 => '0' | 1 => '1' | 2 => '2' | 3 => '3' | 4 => '4'
  | 5 => '5' | 6 => '6' | 7 => '7' | 8 => '8' | _ => '9'

def isDigitCh (c : Char) : Bool := '0' ≤ c && c ≤ '9'

def digitVal (c : Char) : Nat := c.toNat - '0'.toNat

/-- Big-endian decimal digits of a positive natural, accumulator form. -/
def natToDigitsAux : Nat → List Char → List Char
  | 0, acc => acc
  | n + 1, acc =>
    natToDigitsAux ((n + 1) / 10) (digitChar ((n + 1) % 10) :: acc)
decreasing_by exact Nat.div_lt_self (Nat.succ_pos n) (by norm_num)

/-- Canonical decimal rendering of a natural number (as `strconv`/`big.Int`
produce it: no sign, no leading zeroes except for `"0"` itself). -/
def natToDigits (n : Nat) : List Char :=
  if n = 0 then ['0'] else natToDigitsAux n []

/-- Canonical decimal rendering of an integer (`big.Int.String`,
`strconv.FormatInt`): a `'-'` prefix for negatives. -/
def intToDecCs (z : Int) : List Char :=
  if z < 0 then '-' :: natToDigits (-z).toNat else natToDigits z.toNat

/-- Value of a big-endian digit string. -/
def natFromDigits (ds : List Char) : Nat :=
  ds.foldl (fun acc c => acc * 10 + digitVal c) 0

theorem natToDigitsAux_append (n : Nat) :
    ∀ acc, natToDigitsAux n acc = natToDigitsAux n [] ++ acc := by
  induction n using Nat.strong_induction_on with
  | _ n ih =>
    intro acc
    match n with
    | 0 => simp [natToDigitsAux]
    | m + 1 =>
      rw [natToDigitsAux, natToDigitsAux]
      have hlt : (m + 1) / 10 < m + 1 :=
        Nat.div_lt_self (Nat.succ_pos m) (by norm_num)
      rw [ih _ hlt (digitChar ((m + 1) % 10) :: acc),
        ih _ hlt (digitChar ((m + 1) % 10) :: [])]
      simp

theorem digitVal_digitChar (r : Nat) (h : r < 10) :
    digitVal (digitChar r) = r := by
  interval_cases r <;> rfl

theorem natFromDigits_append_digit (ds : List Char) (c : Char) :
    natFromDigits (ds ++ [c]) = natFromDigits ds * 10 + digitVal c := by
  simp [natFromDigits, List.foldl_append]

theorem natFromDigits_natGo (n : Nat) (hn : 0 < n) :
    natFromDigits (natToDigitsAux n []) = n := by
  induction n using Nat.strong_induction_on with
  | _ n ih =>
    match n with
    | 0 => exact absurd hn (by simp)
    | m + 1 =>
      rw [natToDigitsAux, natToDigitsAux_append]
      rw [natFromDigits_append_digit]
      rcases Nat.lt_or_ge (m + 1) 10 with hsmall | hbig
      · have h10 : (m + 1) / 10 = 0 := Nat.div_eq_of_lt hsmall
        rw [h10]
        simp [natFromDigits, natToDigitsAux,
          digitVal_digitChar _ (Nat.mod_lt _ (by norm_num))]
        omega
      · have hlt : (m + 1) / 10 < m + 1 :=
          Nat.div_lt_self (Nat.succ_pos m) (by norm_num)
        have hpos : 0 < (m + 1) / 10 := by
          exact Nat.div_pos hbig (by norm_num)
        rw [ih _ hlt hpos, digitVal_digitChar _ (Nat.mod_lt _ (by norm_num))]
        omega

theorem natFromDigits_natToDigits (n : Nat) :
    natFromDigits (natToDigits n) = n := by
  by_cases h : n = 0
  · subst h; rfl
  · rw [natToDigits, if_neg h]
    exact natFromDigits_natGo n (Nat.pos_of_ne_zero h)

theorem natToDigitsAux_ne_nil (n : Nat) (hn : 0 < n) :
    natToDigitsAux n [] ≠ [] := by
  match n with
  | 0 => exact absurd hn (by simp)
  | m + 1 =>
    rw [natToDigitsAux, natToDigitsAux_append]
    simp

theorem natToDigits_ne_nil (n : Nat) : natToDigits n ≠ [] := by
  by_cases h : n = 0
  · subst h; simp [natToDigits]
  · rw [natToDigits, if_neg h]
    exact natToDigitsAux_ne_nil n (Nat.pos_of_ne_zero h)

theorem isDigitCh_digitChar (r : Nat) (h : r < 10) :
    isDigitCh (digitChar r) = true := by
  interval_cases r <;> rfl

theorem natToDigitsAux_all_digits (n : Nat) :
    ∀ c ∈ natToDigitsAux n [], isDigitCh c = true := by
  induction n using Nat.strong_induction_on with
  | _ n ih =>
    match n with
    | 0 => simp [natToDigitsAux]
    | m + 1 =>
      rw [natToDigitsAux, natToDigitsAux_append]
      intro c hc
      rcases List.mem_append.mp hc with hmem | hmem
      · exact ih _ (Nat.div_lt_self (Nat.succ_pos m) (by norm_num)) c hmem
      · have : c = digitChar ((m + 1) % 10) := by simpa using hmem
        subst this
        exact isDigitCh_digitChar _ (Nat.mod_lt _ (by norm_num))

theorem natToDigits_all_digits (n : Nat) :
    ∀ c ∈ natToDigits n, isDigitCh c = true := by
  by_cases h : n = 0
  · subst h; intro c hc; simp [natToDigits] at hc; subst hc; rfl
  · rw [natToDigits, if_neg h]
    exact natToDigitsAux_all_digits n

/-! ## Parsing number strings

Models of the Go standard-library parsers the codec calls.
-/

/-- Sign handling shared by `strconv.ParseInt` and `big.Int.SetString`:
an optional leading `'+'` or `'-'`.  Returns (negative?, remaining chars). -/
def parseSign (cs : List Char) : Bool × List Char :=
  match cs with
  | [] => (false, [])
  | c :: rest =>
    if c = '-' then (true, rest)
    else if c = '+' then (false, rest)
    else (false, cs)

/-- `strconv.ParseInt(s, 10, 64)`: optional sign, then a non-empty run of
decimal digits, with the signed 64-bit range check.  `none` models a
non-nil error. -/
def parseInt64 (cs : List Char) : Option Int :=
  let (neg, ds) := parseSign cs
  if ds = [] then none
  else if ¬ ds.all isDigitCh then none
  else
    let n := natFromDigits ds
    if neg then
      if n ≤ 2 ^ 63 then some (-(n : Int)) else none
    else
      if n ≤ 2 ^ 63 - 1 then some (n : Int) else none

/-- `big.Int.SetString(s, 10)`: optional sign, then a non-empty run of
decimal digits; no range limit.  `none` models `ok == false`. -/
def bigIntSetString10 (cs : List Char) : Option Int :=
  let (neg, ds) := parseSign cs
  if ds = [] then none
  else if ¬ ds.all isDigitCh then none
  else
    let n := natFromDigits ds
    some (if neg then -(n : Int) else (n : Int))

theorem parseSign_cons_digit (c : Char) (rest : List Char)
    (hc : isDigitCh c = true) :
    parseSign (c :: rest) = (false, c :: rest) := by
  have h1 : c ≠ '-' := by intro he; subst he; exact absurd hc (by decide)
  have h2 : c ≠ '+' := by intro he; subst he; exact absurd hc (by decide)
  simp [parseSign, h1, h2]

theorem parseSign_intToDecCs (z : Int) :
    parseSign (intToDecCs z) = (decide (z < 0), natToDigits z.natAbs) := by
  by_cases h : z < 0
  · rw [intToDecCs, if_pos h]
    have hz : z.natAbs = (-z).toNat := by omega
    simp [parseSign, h, hz]
  · rw [intToDecCs, if_neg h]
    have hz : z.natAbs = z.toNat := by omega
    rw [hz]
    match hmk : natToDigits z.toNat with
    | [] => exact absurd hmk (natToDigits_ne_nil _)
    | c :: rest =>
      have hc : isDigitCh c = true := by
        have := natToDigits_all_digits z.toNat c
        rw [hmk] at this; exact this (by simp)
      rw [parseSign_cons_digit c rest hc]
      simp [h]

theorem bigIntSetString10_intToDecCs (z : Int) :
    bigIntSetString10 (intToDecCs z) = some z := by
  rw [bigIntSetString10, parseSign_intToDecCs]
  have hall : (natToDigits z.natAbs).all isDigitCh = true :=
    List.all_eq_true.mpr (natToDigits_all_digits z.natAbs)
  simp only [natToDigits_ne_nil, if_neg, hall, natFromDigits_natToDigits]
  by_cases h : z < 0
  · have hzc : (z.natAbs : Int) = -z := by omega
    simp [h, hzc]
  · have hzc : (z.natAbs : Int) = z := by omega
    simp [h, hzc]

/-- Digit-count bound: a natural at least `10^k` needs more than `k` digits. -/
theorem natToDigits_length_lower (k : Nat) :
    ∀ n, 10 ^ k ≤ n → k < (natToDigits n).length := by
  induction k with
  | zero =>
    intro n hn
    cases hmk : natToDigits n with
    | nil => exact absurd hmk (natToDigits_ne_nil n)
    | cons c rest => simp
  | succ k ih =>
    intro n hn
    have hpos : 0 < n := lt_of_lt_of_le (Nat.pos_pow_of_pos _ (by norm_num)) hn
    have hge10 : 10 ≤ n := le_trans (by
      have : 10 ^ 1 ≤ 10 ^ (k + 1) := Nat.pow_le_pow_right (by norm_num) (by omega)
      simpa using this) hn
    have hdiv : 10 ^ k ≤ n / 10 := by
      have := Nat.div_le_div_right (c := 10) hn
      simpa [Nat.pow_succ, Nat.mul_div_cancel] using this
    have ihd := ih (n / 10) hdiv
    have hlen : (natToDigits n).length = (natToDigits (n / 10)).length + 1 := by
      rw [natToDigits, if_neg (by omega)]
      match hn10 : n, hpos with
      | m + 1, _ =>
        rw [natToDigitsAux, natToDigitsAux_append]
        have hq : 0 < (m + 1) / 10 := Nat.div_pos (by omega) (by norm_num)
        rw [natToDigits, if_neg (by omega)]
        simp
    omega

theorem natToDigits_length_bound (n k : Nat)
    (h : (natToDigits n).length ≤ k) : n < 10 ^ k := by
  by_contra hcon
  have := natToDigits_length_lower k n (le_of_not_lt hcon)
  omega

/-- `ParseInt` succeeds on every canonical integer string of at most 18
characters (the only ones `writeStringNumber` sends to it). -/
theorem parseInt64_intToDecCs (z : Int)
    (hlen : (intToDecCs z).length ≤ 18) :
    parseInt64 (intToDecCs z) = some z := by
  rw [parseInt64, parseSign_intToDecCs]
  have hall : (natToDigits z.natAbs).all isDigitCh = true :=
    List.all_eq_true.mpr (natToDigits_all_digits z.natAbs)
  have h17 : (10 : Nat) ^ 17 = 100000000000000000 := by norm_num
  have h18 : (10 : Nat) ^ 18 = 1000000000000000000 := by norm_num
  have h2p : (2 : Nat) ^ 63 = 9223372036854775808 := by norm_num
  simp only [natToDigits_ne_nil, if_neg, hall, natFromDigits_natToDigits]
  by_cases h : z < 0
  · have hzc : (z.natAbs : Int) = -z := by omega
    have hdl : (natToDigits z.natAbs).length ≤ 17 := by
      rw [intToDecCs, if_pos h] at hlen
      have hz : (-z).toNat = z.natAbs := by omega
      rw [hz] at hlen
      simpa using hlen
    have hb : z.natAbs < 10 ^ 17 := natToDigits_length_bound _ 17 hdl
    have hle : z.natAbs ≤ 9223372036854775808 := by omega
    simp [h, hle, hzc]
  · have hzc : (z.natAbs : Int) = z := by omega
    have hdl : (natToDigits z.natAbs).length ≤ 18 := by
      rw [intToDecCs, if_neg h] at hlen
      have hz : z.toNat = z.natAbs := by omega
      rw [hz] at hlen
      exact hlen
    have hb : z.natAbs < 10 ^ 18 := natToDigits_length_bound _ 18 hdl
    have hle : z.natAbs ≤ 9223372036854775807 := by omega
    simp [h, hle, hzc]

/-- Modelled from the spec: the `Decimal` arbitrary-precision type of the
`cbor` package (source not available) is a coefficient/exponent pair.
`SetString` parses `[sign] digits [. digits] [e|E [sign] digits]`; the
coefficient collects all mantissa digits, the exponent is the written
exponent minus the number of fractional digits. -/
def decimalSetString (cs : List Char) : Option (Int × Int) :=
  let (neg, cs₁) := parseSign cs
  let intDs := cs₁.takeWhile isDigitCh
  let cs₂ := cs₁.drop intDs.length
  let (fracDs, cs₃) :=
    match cs₂ with
    | '.' :: rest => (rest.takeWhile isDigitCh, rest.drop (rest.takeWhile isDigitCh).length)
    | _ => ([], cs₂)
  if intDs.length + fracDs.length = 0 then none
  else
    let coeff : Int :=
      let n := natFromDigits (intDs ++ fracDs)
      if neg then -(n : Int) else (n : Int)
    match cs₃ with
    | [] => some (coeff, -(fracDs.length : Int))
    | e :: rest =>
      if e = 'e' ∨ e = 'E' then
        let (eneg, eds) := parseSign rest
        if eds = [] ∨ ¬ eds.all isDigitCh then none
        else
          let ev : Int := if eneg then -(natFromDigits eds : Int) else (natFromDigits eds : Int)
          some (coeff, ev - (fracDs.length : Int))
      else none

/-- Modelled from the spec and the source test note
(`Decimal.String() return 314E-2` for input `3.14`): the canonical decimal
rendering is `<coefficient>` when the exponent is zero and
`<coefficient>E<exponent>` otherwise. -/
def decimalToCs (c e : Int) : List Char :=
  if e = 0 then intToDecCs c else intToDecCs c ++ 'E' :: intToDecCs e

/-! ## Big-endian byte strings for `big.Int` payloads -/

/-- `big.Int.Bytes()`: big-endian base-256 digits, empty for zero. -/
def natToBytesAux : Nat → List Nat → List Nat
  | 0, acc => acc
  | n + 1, acc => natToBytesAux ((n + 1) / 256) ((n + 1) % 256 :: acc)
decreasing_by exact Nat.div_lt_self (Nat.succ_pos n) (by norm_num)

def natToBytesBE (n : Nat) : List Nat := natToBytesAux n []

/-- `big.Int.SetBytes`: value of a big-endian byte string. -/
def natFromBytesBE (bs : List Nat) : Nat :=
  bs.foldl (fun acc b => acc * 256 + b) 0

theorem natToBytesAux_append (n : Nat) :
    ∀ acc, natToBytesAux n acc = natToBytesAux n [] ++ acc := by
  induction n using Nat.strong_induction_on with
  | _ n ih =>
    intro acc
    match n with
    | 0 => simp [natToBytesAux]
    | m + 1 =>
      rw [natToBytesAux, natToBytesAux]
      have hlt : (m + 1) / 256 < m + 1 :=
        Nat.div_lt_self (Nat.succ_pos m) (by norm_num)
      rw [ih _ hlt ((m + 1) % 256 :: acc), ih _ hlt ((m + 1) % 256 :: [])]
      simp

theorem natFromBytesBE_append (bs : List Nat) (b : Nat) :
    natFromBytesBE (bs ++ [b]) = natFromBytesBE bs * 256 + b := by
  simp [natFromBytesBE, List.foldl_append]

theorem natFromBytesBE_natToBytesBE (n : Nat) :
    natFromBytesBE (natToBytesBE n) = n := by
  induction n using Nat.strong_induction_on with
  | _ n ih =>
    match n with
    | 0 => simp [natToBytesBE, natToBytesAux, natFromBytesBE]
    | m + 1 =>
      rw [natToBytesBE, natToBytesAux, natToBytesAux_append,
        natFromBytesBE_append]
      have hlt : (m + 1) / 256 < m + 1 :=
        Nat.div_lt_self (Nat.succ_pos m) (by norm_num)
      have := ih _ hlt
      rw [natToBytesBE] at this
      rw [this]
      omega

/-! ## Canonical number strings -/

/-- A canonical integer string: exactly the output of the canonical
renderer on some integer.  These are the number strings the amended
round-trip claim quantifies over. -/
def isCanonIntCs (cs : List Char) : Bool :=
  match bigIntSetString10 cs with
  | some z => cs = intToDecCs z
  | none => false

theorem isCanonIntCs_intToDecCs (z : Int) :
    isCanonIntCs (intToDecCs z) = true := by
  rw [isCanonIntCs, bigIntSetString10_intToDecCs]
  simp

theorem isCanonIntCs_exists {cs : List Char} (h : isCanonIntCs cs = true) :
    ∃ z, cs = intToDecCs z := by
  rw [isCanonIntCs] at h
  match hp : bigIntSetString10 cs with
  | some z => exact ⟨z, by rw [hp] at h; simpa using h⟩
  | none => rw [hp] at h; cases h

/-- Canonical integer strings never contain `'.'`, `'e'` or `'E'`. -/
theorem intToDecCs_no_dot_e (z : Int) :
    ∀ c ∈ intToDecCs z, c ≠ '.' ∧ c ≠ 'e' ∧ c ≠ 'E' := by
  intro c hc
  rw [intToDecCs] at hc
  have hdig : c = '-' ∨ isDigitCh c = true := by
    by_cases h : z < 0
    · rw [if_pos h] at hc
      rcases List.mem_cons.mp hc with h1 | h1
      · exact Or.inl h1
      · exact Or.inr (natToDigits_all_digits _ c h1)
    · rw [if_neg h] at hc
      exact Or.inr (natToDigits_all_digits _ c hc)
  rcases hdig with h1 | h1
  · subst h1; refine ⟨by decide, by decide, by decide⟩
  · refine ⟨?_, ?_, ?_⟩ <;>
      (intro he; subst he; exact absurd h1 (by decide))

/-! ## The CBOR-like wire model

The raw `Writer`/`Reader` of the `cbor` package (byte framing) is not in
the available source; following the spec's wire-protocol section it is
modelled as a stream of tokens: a type header carrying a major type and
its unsigned value, and the raw payload of a text or byte string.  The
header byte seen by `PeekHeader` is reconstructed from the major type and
the CBOR minor encoding of the value, exactly as the byte layer would
produce it. -/

inductive CborTok where
  | hdr (major : Nat) (val : Nat)
  | tstr (s : String)
  | tbytes (b : List Nat)
deriving DecidableEq, Repr

namespace cbor

/-- Major type constants of the Go `cbor` package (shifted into the top
three bits, as in the source: `PosInt = 0 << 5`, …). `Bytes`, `Array`,
`Map` and `Tag` get an `MT` suffix because the bare names collide with
Lean built-ins. -/
def PosIntMT : Nat := 0
def NegIntMT : Nat := 32
def BytesMT : Nat := 64
def UtfMT : Nat := 96
def ArrayMT : Nat := 128
def MapMT : Nat := 160
def TagMT : Nat := 192
def SimpleMT : Nat := 224

/-- `False`, `True`, `Nil` simple-value header bytes. -/
def FalseByte : Nat := 244
def TrueByte : Nat := 245
def NilByte : Nat := 246

def TagPosBigInt : Nat := 2
def TagNegBigInt : Nat := 3
def TagDecimal : Nat := 4

/-- Custom set tags, from the source (`tagStringSet = 3321 + iota`). -/
def tagStringSet : Nat := 3321
def tagNumberSet : Nat := 3322
def tagBinarySet : Nat := 3323

/-- The five-bit minor field of a CBOR header byte for an unsigned value:
values below 24 are immediate, larger ones select the 1/2/4/8-byte
follow-on encodings 24–27. -/
def minorOf (v : Nat) : Nat :=
  if v < 24 then v
  else if v < 256 then 24
  else if v < 65536 then 25
  else if v < 4294967296 then 26
  else 27

/-- The header byte `PeekHeader` returns: major bits plus minor bits. -/
def hdrByteOf (major v : Nat) : Nat := major + minorOf v

/-- `hdr & MajorTypeMask` (mask `0xe0`), as plain arithmetic. -/
def majorOfByte (b : Nat) : Nat := b / 32 * 32

/-- `hdr & MinorTypeMask` (mask `0x1f`), as plain arithmetic. -/
def minorOfByte (b : Nat) : Nat := b % 32

/-! ### Writer

Modelled from the spec: each `Write…` emits the type header token for its
major type followed by its payload.  The model writer is total — write
errors in Go come only from the underlying `io.Writer`, which a
`bytes.Buffer` never produces. -/

def writeType (major v : Nat) : List CborTok := [.hdr major v]

def WriteString (s : String) : List CborTok :=
  [.hdr UtfMT s.utf8ByteSize, .tstr s]

def WriteBytes (b : List Nat) : List CborTok :=
  [.hdr BytesMT b.length, .tbytes b]

def WriteArrayHeader (n : Nat) : List CborTok := [.hdr ArrayMT n]

def WriteMapHeader (n : Nat) : List CborTok := [.hdr MapMT n]

def WriteBoolean (b : Bool) : List CborTok :=
  [.hdr SimpleMT (if b then 21 else 20)]

def WriteNull : List CborTok := [.hdr SimpleMT 22]

/-- Non-negative values use the positive-integer major type directly; a
negative `z` is encoded as the negative-integer major type carrying
`-(z+1)`. -/
def WriteInt64 (z : Int) : List CborTok :=
  if 0 ≤ z then [.hdr PosIntMT z.toNat]
  else [.hdr NegIntMT (-(z + 1)).toNat]

/-- Standard big-integer tags 2/3 followed by the big-endian magnitude
byte string (tag 3 carries `-(z+1)`). -/
def WriteBigInt (z : Int) : List CborTok :=
  if 0 ≤ z then .hdr TagMT TagPosBigInt :: WriteBytes (natToBytesBE z.toNat)
  else .hdr TagMT TagNegBigInt :: WriteBytes (natToBytesBE (-(z + 1)).toNat)

/-- The decimal tag over a two-element array `[exponent, coefficient]`. -/
def WriteDecimal (c e : Int) : List CborTok :=
  .hdr TagMT TagDecimal :: .hdr ArrayMT 2 :: (WriteInt64 e ++ WriteInt64 c)

end cbor

/-! ## Attribute values

`types.AttributeValue` with its ten variants.  Go's `M` is a hash map
with arbitrary iteration order; the model fixes the iteration order by
using an association list, which is what a single encode/decode pass
observes.  Byte strings are lists of byte values. -/

inductive AttributeValue where
  | S (s : String)
  | N (s : String)
  | B (b : List Nat)
  | SS (l : List String)
  | NS (l : List String)
  | BS (l : List (List Nat))
  | L (l : List AttributeValue)
  | M (m : List (String × AttributeValue))
  | BOOL (b : Bool)
  | NULL (v : Bool)
deriving Repr

/-- Go `len(val)` counts bytes; for a char list this is the sum of UTF-8
sizes. -/
def utf8LenCs (cs : List Char) : Nat :=
  cs.foldl (fun n c => n + c.utf8Size) 0

/-- `writeStringNumber` from the source: decimal strings (containing
`.`, `e` or `E`) go through `Decimal.SetString` and the decimal tag;
strings longer than 18 bytes go through `big.Int.SetString` — whose
`ok` result the source discards — and the big-int tags; everything else
through `strconv.ParseInt` and the integer major types.  On a failed
`SetString` Go leaves the receiver's value unspecified; the model writes
`0`, which does not matter to any claim because no error is returned
either way. -/
def writeStringNumber (cs : List Char) : Except String (List CborTok) :=
  if cs.any (fun c => c = '.' ∨ c = 'e' ∨ c = 'E') then
    match decimalSetString cs with
    | none => .error "invalid number"
    | some (c, e) => .ok (cbor.WriteDecimal c e)
  else if 18 < utf8LenCs cs then
    .ok (cbor.WriteBigInt ((bigIntSetString10 cs).getD 0))
  else
    match parseInt64 cs with
    | none => .error "invalid number"
    | some z => .ok (cbor.WriteInt64 z)

/-! ## `EncodeAttributeValue` (source lines 202–290 of the cbor file) -/

mutual

def EncodeAttributeValue : AttributeValue → Except String (List CborTok)
  | .S s => .ok (cbor.WriteString s)
  | .N s => writeStringNumber s.toList
  | .B b => .ok (cbor.WriteBytes b)
  | .SS l =>
    if l.length = 0 then .error "invalid string set: nil or empty"
    else .ok (cbor.writeType cbor.TagMT cbor.tagStringSet ++
      cbor.WriteArrayHeader l.length ++ l.flatMap cbor.WriteString)
  | .NS l =>
    if l.length = 0 then .error "invalid number set: nil or empty"
    else do
      let body ← encodeNumberList l
      .ok (cbor.writeType cbor.TagMT cbor.tagNumberSet ++
        cbor.WriteArrayHeader l.length ++ body)
  | .BS l =>
    if l.length = 0 then .error "invalid binary set: nil or empty"
    else .ok (cbor.writeType cbor.TagMT cbor.tagBinarySet ++
      cbor.WriteArrayHeader l.length ++ l.flatMap cbor.WriteBytes)
  | .L l => do
    let body ← encodeAVList l
    .ok (cbor.WriteArrayHeader l.length ++ body)
  | .M m => do
    let body ← encodeAVMap m
    .ok (cbor.WriteMapHeader m.length ++ body)
  | .BOOL b => .ok (cbor.WriteBoolean b)
  | .NULL v =>
    if ¬ v then .error "invalid null attribute value" else .ok cbor.WriteNull

def encodeNumberList : List String → Except String (List CborTok)
  | [] => .ok []
  | s :: rest => do
    let t ← writeStringNumber s.toList
    let r ← encodeNumberList rest
    .ok (t ++ r)

def encodeAVList : List AttributeValue → Except String (List CborTok)
  | [] => .ok []
  | a :: rest => do
    let t ← EncodeAttributeValue a
    let r ← encodeAVList rest
    .ok (t ++ r)

def encodeAVMap : List (String × AttributeValue) → Except String (List CborTok)
  | [] => .ok []
  | (k, v) :: rest => do
    let tv ← EncodeAttributeValue v
    let r ← encodeAVMap rest
    .ok (cbor.WriteString k ++ tv ++ r)

end

/-! ## Well-formed attribute values

The restriction under which the (amended) round-trip claim holds: no
empty set, no `NULL{false}`, and every number string in canonical
integer form. -/

mutual

def goodAV : AttributeValue → Bool
  | .S _ => true
  | .N s => isCanonIntCs s.toList
  | .B _ => true
  | .SS l => decide (l ≠ [])
  | .NS l => decide (l ≠ []) && l.all (fun s => isCanonIntCs s.toList)
  | .BS l => decide (l ≠ [])
  | .L l => goodAVList l
  | .M m => goodAVMap m
  | .BOOL _ => true
  | .NULL v => v

def goodAVList : List AttributeValue → Bool
  | [] => true
  | a :: rest => goodAV a && goodAVList rest

def goodAVMap : List (String × AttributeValue) → Bool
  | [] => true
  | (_, v) :: rest => goodAV v && goodAVMap rest

end

/-! ## Reader primitives -/

namespace cbor

def PeekHeader : List CborTok → Except String Nat
  | .hdr m v :: _ => .ok (hdrByteOf m v)
  | _ => .error "cbor: expected type header"

def readTypeHeader : List CborTok → Except String ((Nat × Nat) × List CborTok)
  | .hdr m v :: rest => .ok ((m, v), rest)
  | _ => .error "cbor: expected type header"

def ReadString : List CborTok → Except String (String × List CborTok)
  | .hdr m n :: .tstr s :: rest =>
    if m = UtfMT ∧ s.utf8ByteSize = n then .ok (s, rest)
    else .error "cbor: expected text string"
  | _ => .error "cbor: expected text string"

def ReadBytes : List CborTok → Except String (List Nat × List CborTok)
  | .hdr m n :: .tbytes b :: rest =>
    if m = BytesMT ∧ b.length = n then .ok (b, rest)
    else .error "cbor: expected byte string"
  | _ => .error "cbor: expected byte string"

def ReadArrayLength : List CborTok → Except String (Nat × List CborTok)
  | .hdr m n :: rest =>
    if m = ArrayMT then .ok (n, rest) else .error "cbor: expected array"
  | _ => .error "cbor: expected array"

def ReadMapLength : List CborTok → Except String (Nat × List CborTok)
  | .hdr m n :: rest =>
    if m = MapMT then .ok (n, rest) else .error "cbor: expected map"
  | _ => .error "cbor: expected map"

/-- Modelled from the spec: positive and negative integers decode to the
canonical decimal string of their value, preserving full precision
(a negative header value `v` denotes `-(v+1)`). -/
def ReadCborIntegerToString : List CborTok → Except String (String × List CborTok)
  | .hdr m v :: rest =>
    if m = PosIntMT then .ok (⟨natToDigits v⟩, rest)
    else if m = NegIntMT then .ok (⟨'-' :: natToDigits (v + 1)⟩, rest)
    else .error "cbor: expected integer"
  | _ => .error "cbor: expected integer"

/-- Modelled from the spec: tags 2/3 followed by the big-endian magnitude
byte string; tag 3 denotes `-1 - magnitude`. -/
def ReadBigInt : List CborTok → Except String (Int × List CborTok)
  | .hdr m t :: rest =>
    if m = TagMT ∧ t = TagPosBigInt then do
      let (b, r) ← ReadBytes rest
      .ok ((natFromBytesBE b : Int), r)
    else if m = TagMT ∧ t = TagNegBigInt then do
      let (b, r) ← ReadBytes rest
      .ok (-1 - (natFromBytesBE b : Int), r)
    else .error "cbor: expected big int"
  | _ => .error "cbor: expected big int"

/-- An integer item inside a decimal tag payload. -/
def readIntValue : List CborTok → Except String (Int × List CborTok)
  | .hdr m v :: rest =>
    if m = PosIntMT then .ok ((v : Int), rest)
    else if m = NegIntMT then .ok (-1 - (v : Int), rest)
    else .error "cbor: expected integer"
  | _ => .error "cbor: expected integer"

/-- Modelled from the spec: the decimal tag carries `[exponent,
coefficient]`. -/
def ReadDecimal : List CborTok → Except String ((Int × Int) × List CborTok)
  | .hdr m t :: .hdr m2 n2 :: rest =>
    if m = TagMT ∧ t = TagDecimal ∧ m2 = ArrayMT ∧ n2 = 2 then do
      let (e, r1) ← readIntValue rest
      let (c, r2) ← readIntValue r1
      .ok ((c, e), r2)
    else .error "cbor: expected decimal"
  | _ => .error "cbor: expected decimal"

end cbor

/-! ## `DecodeAttributeValue` (source lines 315–461 of the cbor file)

The source recurses on the byte stream; the embedding adds an explicit
fuel argument that bounds the nesting depth, and the top-level entry
point supplies more fuel than any stream can need. -/

def decodeStringList : Nat → List CborTok → Except String (List String × List CborTok)
  | 0, ts => .ok ([], ts)
  | n + 1, ts => do
    let (s, r) ← cbor.ReadString ts
    let (rest, r2) ← decodeStringList n r
    .ok (s :: rest, r2)

def decodeBytesList : Nat → List CborTok → Except String (List (List Nat) × List CborTok)
  | 0, ts => .ok ([], ts)
  | n + 1, ts => do
    let (b, r) ← cbor.ReadBytes ts
    let (rest, r2) ← decodeBytesList n r
    .ok (b :: rest, r2)

mutual

def decodeAV : Nat → List CborTok → Except String (AttributeValue × List CborTok)
  | 0, _ => .error "cbor: recursion limit"
  | fuel + 1, ts => do
    let hb ← cbor.PeekHeader ts
    let major := cbor.majorOfByte hb
    let minor := cbor.minorOfByte hb
    if major = cbor.UtfMT then do
      let (s, r) ← cbor.ReadString ts
      .ok (.S s, r)
    else if major = cbor.BytesMT then do
      let (b, r) ← cbor.ReadBytes ts
      .ok (.B b, r)
    else if major = cbor.ArrayMT then do
      let (n, r) ← cbor.ReadArrayLength ts
      let (as, r2) ← decodeAVList fuel n r
      .ok (.L as, r2)
    else if major = cbor.MapMT then do
      let (n, r) ← cbor.ReadMapLength ts
      let (m, r2) ← decodeAVMap fuel n r
      .ok (.M m, r2)
    else if major = cbor.PosIntMT ∨ major = cbor.NegIntMT then do
      let (s, r) ← cbor.ReadCborIntegerToString ts
      .ok (.N s, r)
    else if major = cbor.SimpleMT then do
      let (_, r) ← cbor.readTypeHeader ts
      if hb = cbor.FalseByte then .ok (.BOOL false, r)
      else if hb = cbor.TrueByte then .ok (.BOOL true, r)
      else if hb = cbor.NilByte then .ok (.NULL true, r)
      else .error "unknown minor type for simple major type"
    else if major = cbor.TagMT then
      if minor = cbor.TagPosBigInt ∨ minor = cbor.TagNegBigInt then do
        let (i, r) ← cbor.ReadBigInt ts
        .ok (.N ⟨intToDecCs i⟩, r)
      else if minor = cbor.TagDecimal then do
        let (ce, r) ← cbor.ReadDecimal ts
        .ok (.N ⟨decimalToCs ce.1 ce.2⟩, r)
      else do
        let (mt, r) ← cbor.readTypeHeader ts
        if mt.2 = cbor.tagStringSet then do
          let (n, r1) ← cbor.ReadArrayLength r
          let (ss, r2) ← decodeStringList n r1
          .ok (.SS ss, r2)
        else if mt.2 = cbor.tagNumberSet then do
          let (n, r1) ← cbor.ReadArrayLength r
          let (ns, r2) ← decodeNumberSet fuel n r1
          .ok (.NS ns, r2)
        else if mt.2 = cbor.tagBinarySet then do
          let (n, r1) ← cbor.ReadArrayLength r
          let (bs, r2) ← decodeBytesList n r1
          .ok (.BS bs, r2)
        else .error "unknown minor type or tag"
    else .error "unknown major type"

def decodeAVList : Nat → Nat → List CborTok → Except String (List AttributeValue × List CborTok)
  | _, 0, ts => .ok ([], ts)
  | fuel, n + 1, ts => do
    let (a, r) ← decodeAV fuel ts
    let (rest, r2) ← decodeAVList fuel n r
    .ok (a :: rest, r2)

def decodeAVMap : Nat → Nat → List CborTok → Except String (List (String × AttributeValue) × List CborTok)
  | _, 0, ts => .ok ([], ts)
  | fuel, n + 1, ts => do
    let (k, r0) ← cbor.ReadString ts
    let (v, r1) ← decodeAV fuel r0
    let (rest, r2) ← decodeAVMap fuel n r1
    .ok ((k, v) :: rest, r2)

def decodeNumberSet : Nat → Nat → List CborTok → Except String (List String × List CborTok)
  | _, 0, ts => .ok ([], ts)
  | fuel, n + 1, ts => do
    let (av, r) ← decodeAV fuel ts
    match av with
    | .N s => do
      let (rest, r2) ← decodeNumberSet fuel n r
      .ok (s :: rest, r2)
    | _ => .error "attribute type is not number"

end

/-- The decoder entry point; the fuel exceeds the stream length, which
(by `decodeAV_proceeds`-style bounds below) is more than any well-formed
stream needs. -/
def DecodeAttributeValue (ts : List CborTok) : Except String (AttributeValue × List CborTok) :=
  decodeAV (ts.length + 1) ts

/-! ## Reader/writer agreement -/

theorem minorOf_lt_32 (v : Nat) : cbor.minorOf v < 32 := by
  rw [cbor.minorOf]
  split_ifs <;> omega

theorem majorOfByte_hdrByteOf (M v : Nat) (h : M % 32 = 0) :
    cbor.majorOfByte (cbor.hdrByteOf M v) = M := by
  have := minorOf_lt_32 v
  rw [cbor.majorOfByte, cbor.hdrByteOf]
  omega

theorem minorOfByte_hdrByteOf (M v : Nat) (h : M % 32 = 0) :
    cbor.minorOfByte (cbor.hdrByteOf M v) = cbor.minorOf v := by
  have := minorOf_lt_32 v
  rw [cbor.minorOfByte, cbor.hdrByteOf]
  omega

theorem readString_writeString (s : String) (rest : List CborTok) :
    cbor.ReadString (cbor.WriteString s ++ rest) = .ok (s, rest) := by
  simp [cbor.ReadString, cbor.WriteString]

theorem readBytes_writeBytes (b : List Nat) (rest : List CborTok) :
    cbor.ReadBytes (cbor.WriteBytes b ++ rest) = .ok (b, rest) := by
  simp [cbor.ReadBytes, cbor.WriteBytes]

theorem decodeAV_writeString (f : Nat) (s : String) (rest : List CborTok) :
    decodeAV (f + 1) (cbor.WriteString s ++ rest) = .ok (.S s, rest) := by
  have hm : cbor.majorOfByte (cbor.hdrByteOf 96 s.utf8ByteSize) = 96 :=
    majorOfByte_hdrByteOf 96 _ (by norm_num)
  simp only [decodeAV, cbor.WriteString, List.cons_append, List.nil_append,
    cbor.PeekHeader, Bind.bind, Except.bind, cbor.UtfMT, hm]
  simp [cbor.ReadString, cbor.UtfMT]

theorem decodeAV_writeBytes (f : Nat) (b : List Nat) (rest : List CborTok) :
    decodeAV (f + 1) (cbor.WriteBytes b ++ rest) = .ok (.B b, rest) := by
  have hm : cbor.majorOfByte (cbor.hdrByteOf 64 b.length) = 64 :=
    majorOfByte_hdrByteOf 64 _ (by norm_num)
  simp only [decodeAV, cbor.WriteBytes, List.cons_append, List.nil_append,
    cbor.PeekHeader, Bind.bind, Except.bind, cbor.BytesMT, hm]
  simp [cbor.ReadBytes, cbor.BytesMT, cbor.UtfMT]

theorem decodeAV_writeBoolean (f : Nat) (b : Bool) (rest : List CborTok) :
    decodeAV (f + 1) (cbor.WriteBoolean b ++ rest) = .ok (.BOOL b, rest) := by
  cases b <;>
  · simp only [decodeAV, cbor.WriteBoolean, List.cons_append, List.nil_append,
      cbor.PeekHeader, Bind.bind, Except.bind]
    norm_num [cbor.hdrByteOf, cbor.minorOf, cbor.majorOfByte, cbor.SimpleMT,
      cbor.UtfMT, cbor.BytesMT, cbor.ArrayMT, cbor.MapMT, cbor.PosIntMT,
      cbor.NegIntMT, cbor.TagMT, cbor.readTypeHeader, cbor.FalseByte,
      cbor.TrueByte, cbor.NilByte]

theorem decodeAV_writeNull (f : Nat) (rest : List CborTok) :
    decodeAV (f + 1) (cbor.WriteNull ++ rest) = .ok (.NULL true, rest) := by
  simp only [decodeAV, cbor.WriteNull, List.cons_append, List.nil_append,
    cbor.PeekHeader, Bind.bind, Except.bind]
  norm_num [cbor.hdrByteOf, cbor.minorOf, cbor.majorOfByte, cbor.SimpleMT,
    cbor.UtfMT, cbor.BytesMT, cbor.ArrayMT, cbor.MapMT, cbor.PosIntMT,
    cbor.NegIntMT, cbor.TagMT, cbor.readTypeHeader, cbor.FalseByte,
    cbor.TrueByte, cbor.NilByte]

theorem utf8Size_of_digit (c : Char) (h : isDigitCh c = true) :
    c.utf8Size = 1 := by
  simp [isDigitCh] at h
  have h2 := Char.le_def.mp h.2
  rw [UInt32.le_def, BitVec.le_def] at h2
  have h9 : ('9').val.toBitVec.toNat = 57 := by decide
  rw [h9] at h2
  rw [Char.utf8Size]
  have hle : c.val ≤ 0x7F := by
    rw [UInt32.le_def, BitVec.le_def]
    have h127 : (0x7F : UInt32).toBitVec.toNat = 127 := by decide
    rw [h127]
    omega
  simp [hle]

theorem utf8LenCs_aux (cs : List Char) (hall : ∀ c ∈ cs, c.utf8Size = 1) :
    ∀ a, cs.foldl (fun n c => n + c.utf8Size) a = a + cs.length := by
  induction cs with
  | nil => simp
  | cons c rest ih =>
    intro a
    have hc := hall c (by simp)
    rw [List.foldl_cons, ih (fun x hx => hall x (by simp [hx])) (a + c.utf8Size), hc,
      List.length_cons]
    omega

theorem utf8LenCs_eq_length (cs : List Char) (hall : ∀ c ∈ cs, c.utf8Size = 1) :
    utf8LenCs cs = cs.length := by
  rw [utf8LenCs, utf8LenCs_aux cs hall 0]
  omega

theorem utf8Size_intToDecCs (z : Int) :
    ∀ c ∈ intToDecCs z, c.utf8Size = 1 := by
  intro c hc
  rw [intToDecCs] at hc
  by_cases h : z < 0
  · rw [if_pos h] at hc
    rcases List.mem_cons.mp hc with h1 | h1
    · subst h1; decide
    · exact utf8Size_of_digit c (natToDigits_all_digits _ c h1)
  · rw [if_neg h] at hc
    exact utf8Size_of_digit c (natToDigits_all_digits _ c hc)

theorem anyDotEE_intToDecCs (z : Int) :
    ((intToDecCs z).any fun c => decide (c = '.' ∨ c = 'e' ∨ c = 'E')) = false := by
  rw [List.any_eq_false]
  intro c hc
  have h := intToDecCs_no_dot_e z c hc
  simp [h.1, h.2.1, h.2.2]

theorem decodeAV_writeInt64 (f : Nat) (z : Int) (rest : List CborTok) :
    decodeAV (f + 1) (cbor.WriteInt64 z ++ rest) = .ok (.N ⟨intToDecCs z⟩, rest) := by
  by_cases h : 0 ≤ z
  · have hm : cbor.majorOfByte (cbor.hdrByteOf 0 z.toNat) = 0 :=
      majorOfByte_hdrByteOf 0 _ (by norm_num)
    rw [cbor.WriteInt64, if_pos h]
    simp only [decodeAV, List.cons_append, List.nil_append,
      cbor.PeekHeader, Bind.bind, Except.bind, cbor.PosIntMT, hm,
      cbor.UtfMT, cbor.BytesMT, cbor.ArrayMT, cbor.MapMT, cbor.NegIntMT]
    have hz : intToDecCs z = natToDigits z.toNat := by
      rw [intToDecCs, if_neg (by omega)]
    simp [cbor.ReadCborIntegerToString, cbor.PosIntMT, hz]
  · have hm : cbor.majorOfByte (cbor.hdrByteOf 32 (-(z + 1)).toNat) = 32 :=
      majorOfByte_hdrByteOf 32 _ (by norm_num)
    rw [cbor.WriteInt64, if_neg h]
    simp only [decodeAV, List.cons_append, List.nil_append,
      cbor.PeekHeader, Bind.bind, Except.bind, cbor.PosIntMT, hm,
      cbor.UtfMT, cbor.BytesMT, cbor.ArrayMT, cbor.MapMT, cbor.NegIntMT]
    have hz : intToDecCs z = '-' :: natToDigits ((-(z + 1)).toNat + 1) := by
      rw [intToDecCs, if_pos (by omega)]
      have : (-(z + 1)).toNat + 1 = (-z).toNat := by omega
      rw [this]
    simp [cbor.ReadCborIntegerToString, cbor.PosIntMT, cbor.NegIntMT, hz]

theorem decodeAV_writeBigInt (f : Nat) (z : Int) (rest : List CborTok) :
    decodeAV (f + 1) (cbor.WriteBigInt z ++ rest) = .ok (.N ⟨intToDecCs z⟩, rest) := by
  by_cases h : 0 ≤ z
  · have hm : cbor.majorOfByte (cbor.hdrByteOf 192 2) = 192 :=
      majorOfByte_hdrByteOf 192 _ (by norm_num)
    have hmin : cbor.minorOfByte (cbor.hdrByteOf 192 2) = 2 := by decide
    rw [cbor.WriteBigInt, if_pos h]
    simp only [decodeAV, cbor.TagPosBigInt, List.cons_append, List.nil_append,
      cbor.PeekHeader, Bind.bind, Except.bind, hm, hmin,
      cbor.UtfMT, cbor.BytesMT, cbor.ArrayMT, cbor.MapMT, cbor.PosIntMT,
      cbor.NegIntMT, cbor.SimpleMT, cbor.TagMT]
    simp only [cbor.ReadBigInt, cbor.TagMT, cbor.TagPosBigInt, cbor.TagNegBigInt]
    rw [readBytes_writeBytes]
    simp only [Bind.bind, Except.bind, natFromBytesBE_natToBytesBE]
    have harg : ((z.toNat : Nat) : Int) = z := by omega
    rw [harg]
    simp
  · have hm : cbor.majorOfByte (cbor.hdrByteOf 192 3) = 192 :=
      majorOfByte_hdrByteOf 192 _ (by norm_num)
    have hmin : cbor.minorOfByte (cbor.hdrByteOf 192 3) = 3 := by decide
    rw [cbor.WriteBigInt, if_neg h]
    simp only [decodeAV, cbor.TagNegBigInt, List.cons_append, List.nil_append,
      cbor.PeekHeader, Bind.bind, Except.bind, hm, hmin,
      cbor.UtfMT, cbor.BytesMT, cbor.ArrayMT, cbor.MapMT, cbor.PosIntMT,
      cbor.NegIntMT, cbor.SimpleMT, cbor.TagMT]
    simp only [cbor.ReadBigInt, cbor.TagMT, cbor.TagPosBigInt, cbor.TagNegBigInt]
    rw [readBytes_writeBytes]
    simp only [Bind.bind, Except.bind, natFromBytesBE_natToBytesBE]
    have harg : (-1 : Int) - (((-(z + 1)).toNat : Nat) : Int) = z := by omega
    rw [harg]
    simp

/-- A canonical integer string encodes without error (in at most three
tokens) and decodes back to itself, through whichever of the int64 and
big-int paths its length selects. -/
theorem writeStringNumber_canon (z : Int) :
    ∃ ts, writeStringNumber (intToDecCs z) = .ok ts ∧
      (1 ≤ ts.length ∧ ts.length ≤ 3) ∧
      ∀ f rest, decodeAV (f + 1) (ts ++ rest) = .ok (.N ⟨intToDecCs z⟩, rest) := by
  rw [writeStringNumber]
  rw [anyDotEE_intToDecCs]
  simp only [Bool.false_eq_true, if_false]
  by_cases hlen : 18 < utf8LenCs (intToDecCs z)
  · rw [if_pos hlen, bigIntSetString10_intToDecCs]
    refine ⟨_, rfl, ?_, ?_⟩
    · by_cases h : 0 ≤ z <;>
        simp [cbor.WriteBigInt, cbor.WriteBytes, h]
    · intro f rest
      exact decodeAV_writeBigInt f z rest
  · rw [if_neg hlen]
    have hl : (intToDecCs z).length ≤ 18 := by
      rw [utf8LenCs_eq_length _ (utf8Size_intToDecCs z)] at hlen
      omega
    rw [parseInt64_intToDecCs z hl]
    refine ⟨_, rfl, ?_, ?_⟩
    · by_cases h : 0 ≤ z <;> simp [cbor.WriteInt64, h]
    · intro f rest
      exact decodeAV_writeInt64 f z rest

theorem decodeAV_array (f n : Nat) (ts : List CborTok) :
    decodeAV (f + 1) (.hdr 128 n :: ts) =
      (decodeAVList f n ts).map (fun p => (.L p.1, p.2)) := by
  have hm : cbor.majorOfByte (cbor.hdrByteOf 128 n) = 128 :=
    majorOfByte_hdrByteOf 128 _ (by norm_num)
  simp only [decodeAV, cbor.PeekHeader, Bind.bind, Except.bind, hm,
    cbor.UtfMT, cbor.BytesMT, cbor.ArrayMT, cbor.MapMT, cbor.PosIntMT,
    cbor.NegIntMT, cbor.SimpleMT, cbor.TagMT, cbor.ReadArrayLength]
  cases hres : decodeAVList f n ts <;> simp [hres, Except.map]

theorem decodeAV_mapHdr (f n : Nat) (ts : List CborTok) :
    decodeAV (f + 1) (.hdr 160 n :: ts) =
      (decodeAVMap f n ts).map (fun p => (.M p.1, p.2)) := by
  have hm : cbor.majorOfByte (cbor.hdrByteOf 160 n) = 160 :=
    majorOfByte_hdrByteOf 160 _ (by norm_num)
  simp only [decodeAV, cbor.PeekHeader, Bind.bind, Except.bind, hm,
    cbor.UtfMT, cbor.BytesMT, cbor.ArrayMT, cbor.MapMT, cbor.PosIntMT,
    cbor.NegIntMT, cbor.SimpleMT, cbor.TagMT, cbor.ReadMapLength]
  cases hres : decodeAVMap f n ts <;> simp [hres, Except.map]

theorem decodeAV_tagSS (f n : Nat) (ts : List CborTok) :
    decodeAV (f + 1) (.hdr 192 3321 :: .hdr 128 n :: ts) =
      (decodeStringList n ts).map (fun p => (.SS p.1, p.2)) := by
  have hm : cbor.majorOfByte (cbor.hdrByteOf 192 3321) = 192 := by decide
  have hmin : cbor.minorOfByte (cbor.hdrByteOf 192 3321) = 25 := by decide
  simp only [decodeAV, cbor.PeekHeader, Bind.bind, Except.bind, hm, hmin,
    cbor.UtfMT, cbor.BytesMT, cbor.ArrayMT, cbor.MapMT, cbor.PosIntMT,
    cbor.NegIntMT, cbor.SimpleMT, cbor.TagMT, cbor.TagPosBigInt,
    cbor.TagNegBigInt, cbor.TagDecimal, cbor.readTypeHeader,
    cbor.tagStringSet, cbor.tagNumberSet, cbor.tagBinarySet,
    cbor.ReadArrayLength]
  cases hres : decodeStringList n ts <;> simp [hres, Except.map, cbor.ArrayMT]

theorem decodeAV_tagNS (f n : Nat) (ts : List CborTok) :
    decodeAV (f + 1) (.hdr 192 3322 :: .hdr 128 n :: ts) =
      (decodeNumberSet f n ts).map (fun p => (.NS p.1, p.2)) := by
  have hm : cbor.majorOfByte (cbor.hdrByteOf 192 3322) = 192 := by decide
  have hmin : cbor.minorOfByte (cbor.hdrByteOf 192 3322) = 25 := by decide
  simp only [decodeAV, cbor.PeekHeader, Bind.bind, Except.bind, hm, hmin,
    cbor.UtfMT, cbor.BytesMT, cbor.ArrayMT, cbor.MapMT, cbor.PosIntMT,
    cbor.NegIntMT, cbor.SimpleMT, cbor.TagMT, cbor.TagPosBigInt,
    cbor.TagNegBigInt, cbor.TagDecimal, cbor.readTypeHeader,
    cbor.tagStringSet, cbor.tagNumberSet, cbor.tagBinarySet,
    cbor.ReadArrayLength]
  cases hres : decodeNumberSet f n ts <;> simp [hres, Except.map, cbor.ArrayMT]

theorem decodeAV_tagBS (f n : Nat) (ts : List CborTok) :
    decodeAV (f + 1) (.hdr 192 3323 :: .hdr 128 n :: ts) =
      (decodeBytesList n ts).map (fun p => (.BS p.1, p.2)) := by
  have hm : cbor.majorOfByte (cbor.hdrByteOf 192 3323) = 192 := by decide
  have hmin : cbor.minorOfByte (cbor.hdrByteOf 192 3323) = 25 := by decide
  simp only [decodeAV, cbor.PeekHeader, Bind.bind, Except.bind, hm, hmin,
    cbor.UtfMT, cbor.BytesMT, cbor.ArrayMT, cbor.MapMT, cbor.PosIntMT,
    cbor.NegIntMT, cbor.SimpleMT, cbor.TagMT, cbor.TagPosBigInt,
    cbor.TagNegBigInt, cbor.TagDecimal, cbor.readTypeHeader,
    cbor.tagStringSet, cbor.tagNumberSet, cbor.tagBinarySet,
    cbor.ReadArrayLength]
  cases hres : decodeBytesList n ts <;> simp [hres, Except.map, cbor.ArrayMT]

theorem decodeStringList_write (l : List String) (rest : List CborTok) :
    decodeStringList l.length (l.flatMap cbor.WriteString ++ rest) = .ok (l, rest) := by
  induction l with
  | nil => simp [decodeStringList]
  | cons s r ih =>
    simp only [List.flatMap_cons, List.append_assoc, List.length_cons]
    rw [decodeStringList]
    rw [readString_writeString]
    simp [Bind.bind, Except.bind, ih]

theorem decodeBytesList_write (l : List (List Nat)) (rest : List CborTok) :
    decodeBytesList l.length (l.flatMap cbor.WriteBytes ++ rest) = .ok (l, rest) := by
  induction l with
  | nil => simp [decodeBytesList]
  | cons b r ih =>
    simp only [List.flatMap_cons, List.append_assoc, List.length_cons]
    rw [decodeBytesList]
    rw [readBytes_writeBytes]
    simp [Bind.bind, Except.bind, ih]

/-- String extensionality in constructor form. -/
theorem stringMk_toList (s : String) : (⟨s.toList⟩ : String) = s := by
  cases s
  rfl

theorem decodeNumberSet_write (l : List String)
    (hg : l.all (fun s => isCanonIntCs s.toList) = true) :
    ∃ ts, encodeNumberList l = .ok ts ∧
      ∀ fuel rest, 1 ≤ fuel → decodeNumberSet fuel l.length (ts ++ rest) = .ok (l, rest) := by
  induction l with
  | nil => exact ⟨[], rfl, fun fuel rest _ => by simp [decodeNumberSet]⟩
  | cons s r ih =>
    simp only [List.all_cons, Bool.and_eq_true] at hg
    obtain ⟨z, hz⟩ := isCanonIntCs_exists hg.1
    obtain ⟨tr, htr, hdr'⟩ := ih hg.2
    obtain ⟨t, ht, _, hdec⟩ := writeStringNumber_canon z
    refine ⟨t ++ tr, ?_, ?_⟩
    · rw [encodeNumberList, hz, ht, htr]
      simp [Bind.bind, Except.bind]
    · intro fuel rest hfuel
      obtain ⟨f, rfl⟩ : ∃ f, fuel = f + 1 := ⟨fuel - 1, by omega⟩
      rw [List.length_cons, decodeNumberSet]
      rw [List.append_assoc, hdec f (tr ++ rest)]
      have hs : (⟨intToDecCs z⟩ : String) = s := by
        rw [← hz]; exact stringMk_toList s
      rw [hs]
      simp [Bind.bind, Except.bind, hdr' (f + 1) rest (by omega)]

/-! ## The round-trip theorem family

Mutual structural induction over the attribute-value tree: encoding a
well-formed value succeeds and decoding the produced stream (with fuel at
least the stream length) yields the value back with the remainder of the
stream untouched. -/

mutual

theorem decode_encode_goodAV (a : AttributeValue) (hg : goodAV a = true) :
    ∃ ts, EncodeAttributeValue a = .ok ts ∧ 1 ≤ ts.length ∧
      ∀ fuel rest, ts.length ≤ fuel → decodeAV fuel (ts ++ rest) = .ok (a, rest) := by
  cases a with
  | S s =>
    refine ⟨cbor.WriteString s, rfl, by simp [cbor.WriteString], ?_⟩
    intro fuel rest hf
    obtain ⟨f, rfl⟩ : ∃ f, fuel = f + 1 :=
      ⟨fuel - 1, by simp [cbor.WriteString] at hf; omega⟩
    exact decodeAV_writeString f s rest
  | N s =>
    obtain ⟨z, hz⟩ := isCanonIntCs_exists (by simpa [goodAV] using hg)
    obtain ⟨t, ht, hlen, hdec⟩ := writeStringNumber_canon z
    have hz' : s.toList = intToDecCs z := hz
    have henc : EncodeAttributeValue (.N s) = .ok t := by
      rw [EncodeAttributeValue, hz', ht]
    refine ⟨t, henc, hlen.1, ?_⟩
    intro fuel rest hf
    obtain ⟨f, rfl⟩ : ∃ f, fuel = f + 1 := ⟨fuel - 1, by omega⟩
    have hs : (⟨intToDecCs z⟩ : String) = s := by
      rw [← hz']; exact stringMk_toList s
    rw [hdec f rest, hs]
  | B b =>
    refine ⟨cbor.WriteBytes b, rfl, by simp [cbor.WriteBytes], ?_⟩
    intro fuel rest hf
    obtain ⟨f, rfl⟩ : ∃ f, fuel = f + 1 :=
      ⟨fuel - 1, by simp [cbor.WriteBytes] at hf; omega⟩
    exact decodeAV_writeBytes f b rest
  | SS l =>
    have hne : ¬ (l.length = 0) := by
      simp [goodAV] at hg
      simpa using hg
    refine ⟨_, by rw [EncodeAttributeValue, if_neg hne], ?_, ?_⟩
    · simp [cbor.writeType]
    intro fuel rest hf
    obtain ⟨f, rfl⟩ : ∃ f, fuel = f + 1 :=
      ⟨fuel - 1, by simp [cbor.writeType] at hf; omega⟩
    simp only [cbor.writeType, cbor.WriteArrayHeader, cbor.TagMT,
      cbor.ArrayMT, cbor.tagStringSet, List.cons_append, List.nil_append,
      List.append_assoc]
    rw [decodeAV_tagSS f l.length (l.flatMap cbor.WriteString ++ rest),
      decodeStringList_write]
    simp [Except.map]
  | NS l =>
    have hg2 : decide (l ≠ []) && l.all (fun s => isCanonIntCs s.toList) = true := by
      simpa [goodAV] using hg
    simp only [Bool.and_eq_true, decide_eq_true_eq] at hg2
    have hne : ¬ (l.length = 0) := by simpa using hg2.1
    obtain ⟨body, hbe, hbd⟩ := decodeNumberSet_write l hg2.2
    have henc : EncodeAttributeValue (.NS l) =
        .ok (cbor.writeType cbor.TagMT cbor.tagNumberSet ++
          cbor.WriteArrayHeader l.length ++ body) := by
      rw [EncodeAttributeValue, if_neg hne, hbe]
      simp [Bind.bind, Except.bind]
    refine ⟨_, henc, by simp [cbor.writeType], ?_⟩
    intro fuel rest hf
    obtain ⟨f, rfl⟩ : ∃ f, fuel = f + 1 :=
      ⟨fuel - 1, by simp [cbor.writeType] at hf; omega⟩
    simp only [cbor.writeType, cbor.WriteArrayHeader, cbor.TagMT,
      cbor.ArrayMT, cbor.tagNumberSet, List.cons_append, List.nil_append,
      List.append_assoc]
    rw [decodeAV_tagNS f l.length (body ++ rest),
      hbd f rest (by
        simp [cbor.writeType, cbor.WriteArrayHeader] at hf
        omega)]
    simp [Except.map]
  | BS l =>
    have hne : ¬ (l.length = 0) := by
      simp [goodAV] at hg
      simpa using hg
    refine ⟨_, by rw [EncodeAttributeValue, if_neg hne], ?_, ?_⟩
    · simp [cbor.writeType]
    intro fuel rest hf
    obtain ⟨f, rfl⟩ : ∃ f, fuel = f + 1 :=
      ⟨fuel - 1, by simp [cbor.writeType] at hf; omega⟩
    simp only [cbor.writeType, cbor.WriteArrayHeader, cbor.TagMT,
      cbor.ArrayMT, cbor.tagBinarySet, List.cons_append, List.nil_append,
      List.append_assoc]
    rw [decodeAV_tagBS f l.length (l.flatMap cbor.WriteBytes ++ rest),
      decodeBytesList_write]
    simp [Except.map]
  | L l =>
    obtain ⟨body, hbe, hbd⟩ :=
      decode_encode_goodAVList l (by simpa [goodAV] using hg)
    have henc : EncodeAttributeValue (.L l) =
        .ok (cbor.WriteArrayHeader l.length ++ body) := by
      rw [EncodeAttributeValue, hbe]
      simp [Bind.bind, Except.bind]
    refine ⟨_, henc, by simp [cbor.WriteArrayHeader], ?_⟩
    intro fuel rest hf
    obtain ⟨f, rfl⟩ : ∃ f, fuel = f + 1 :=
      ⟨fuel - 1, by simp [cbor.WriteArrayHeader] at hf; omega⟩
    simp only [cbor.WriteArrayHeader, cbor.ArrayMT, List.cons_append,
      List.nil_append, List.append_assoc]
    rw [decodeAV_array f l.length (body ++ rest),
      hbd f rest (by
        simp [cbor.WriteArrayHeader] at hf
        omega)]
    simp [Except.map]
  | M m =>
    obtain ⟨body, hbe, hbd⟩ :=
      decode_encode_goodAVMap m (by simpa [goodAV] using hg)
    have henc : EncodeAttributeValue (.M m) =
        .ok (cbor.WriteMapHeader m.length ++ body) := by
      rw [EncodeAttributeValue, hbe]
      simp [Bind.bind, Except.bind]
    refine ⟨_, henc, by simp [cbor.WriteMapHeader], ?_⟩
    intro fuel rest hf
    obtain ⟨f, rfl⟩ : ∃ f, fuel = f + 1 :=
      ⟨fuel - 1, by simp [cbor.WriteMapHeader] at hf; omega⟩
    simp only [cbor.WriteMapHeader, cbor.MapMT, List.cons_append,
      List.nil_append, List.append_assoc]
    rw [decodeAV_mapHdr f m.length (body ++ rest),
      hbd f rest (by
        simp [cbor.WriteMapHeader] at hf
        omega)]
    simp [Except.map]
  | BOOL b =>
    refine ⟨cbor.WriteBoolean b, rfl, by simp [cbor.WriteBoolean], ?_⟩
    intro fuel rest hf
    obtain ⟨f, rfl⟩ : ∃ f, fuel = f + 1 :=
      ⟨fuel - 1, by simp [cbor.WriteBoolean] at hf; omega⟩
    exact decodeAV_writeBoolean f b rest
  | NULL v =>
    have hv : v = true := by simpa [goodAV] using hg
    subst hv
    have henc : EncodeAttributeValue (.NULL true) = .ok cbor.WriteNull := by
      rw [EncodeAttributeValue]
      simp
    refine ⟨cbor.WriteNull, henc, by simp [cbor.WriteNull], ?_⟩
    intro fuel rest hf
    obtain ⟨f, rfl⟩ : ∃ f, fuel = f + 1 :=
      ⟨fuel - 1, by simp [cbor.WriteNull] at hf; omega⟩
    exact decodeAV_writeNull f rest

theorem decode_encode_goodAVList (l : List AttributeValue)
    (hg : goodAVList l = true) :
    ∃ ts, encodeAVList l = .ok ts ∧
      ∀ fuel rest, ts.length ≤ fuel →
        decodeAVList fuel l.length (ts ++ rest) = .ok (l, rest) := by
  cases l with
  | nil => exact ⟨[], rfl, fun fuel rest _ => by simp [decodeAVList]⟩
  | cons a r =>
    have hga : goodAV a = true ∧ goodAVList r = true := by
      simpa [goodAVList] using hg
    obtain ⟨t, ht, _, hdt⟩ := decode_encode_goodAV a hga.1
    obtain ⟨tr, htr, hdtr⟩ := decode_encode_goodAVList r hga.2
    refine ⟨t ++ tr, ?_, ?_⟩
    · rw [encodeAVList, ht, htr]
      simp [Bind.bind, Except.bind]
    · intro fuel rest hf
      rw [List.length_cons]
      simp only [decodeAVList]
      rw [List.append_assoc,
        hdt fuel (tr ++ rest) (by simp at hf; omega)]
      simp [Bind.bind, Except.bind,
        hdtr fuel rest (by simp at hf; omega)]

theorem decode_encode_goodAVMap (m : List (String × AttributeValue))
    (hg : goodAVMap m = true) :
    ∃ ts, encodeAVMap m = .ok ts ∧
      ∀ fuel rest, ts.length ≤ fuel →
        decodeAVMap fuel m.length (ts ++ rest) = .ok (m, rest) := by
  cases m with
  | nil => exact ⟨[], rfl, fun fuel rest _ => by simp [decodeAVMap]⟩
  | cons kv r =>
    obtain ⟨k, v⟩ := kv
    have hga : goodAV v = true ∧ goodAVMap r = true := by
      simpa [goodAVMap] using hg
    obtain ⟨t, ht, _, hdt⟩ := decode_encode_goodAV v hga.1
    obtain ⟨tr, htr, hdtr⟩ := decode_encode_goodAVMap r hga.2
    refine ⟨cbor.WriteString k ++ t ++ tr, ?_, ?_⟩
    · rw [encodeAVMap, ht, htr]
      simp [Bind.bind, Except.bind]
    · intro fuel rest hf
      rw [List.length_cons]
      simp only [decodeAVMap]
      rw [List.append_assoc, List.append_assoc, readString_writeString]
      simp only [Bind.bind, Except.bind]
      rw [hdt fuel (tr ++ rest) (by simp [cbor.WriteString] at hf; omega)]
      simp [Bind.bind, Except.bind,
        hdtr fuel rest (by simp [cbor.WriteString] at hf; omega)]

end

/-- Encode followed by decode, as one function (the shape of the
round-trip law in the spec). -/
def roundTripAV (a : AttributeValue) : Except String AttributeValue :=
  match EncodeAttributeValue a with
  | .error e => .error e
  | .ok ts => (DecodeAttributeValue ts).map (·.1)

/-- **C1** (amended).  For every attribute value of variant S, N, B, SS,
NS, BS, L, M, BOOL or NULL{true} — excluding empty SS/NS/BS sets and
NULL{false}, and with every number string (the N payload and every NS
member, at any nesting depth) in canonical integer form — encoding
succeeds and decoding the produced stream returns a structurally equal
value with no stream left over. -/
theorem c1_roundtrip_canonical (a : AttributeValue) (hg : goodAV a = true) :
    ∃ ts, EncodeAttributeValue a = .ok ts ∧
      DecodeAttributeValue ts = .ok (a, []) := by
  obtain ⟨ts, henc, _, hdec⟩ := decode_encode_goodAV a hg
  refine ⟨ts, henc, ?_⟩
  rw [DecodeAttributeValue]
  have h := hdec (ts.length + 1) [] (by omega)
  simpa using h

/-- The spec's first end-to-end scenario, used as the concrete witness. -/
def c1SampleAV : AttributeValue :=
  .M [("s", .S "abc"), ("n", .N "123")]

theorem c1_roundtrip_canonical_witness :
    goodAV c1SampleAV = true ∧
      ∃ ts, EncodeAttributeValue c1SampleAV = .ok ts ∧
        DecodeAttributeValue ts = .ok (c1SampleAV, []) := by
  have hg : goodAV c1SampleAV = true := by
    simp +decide [c1SampleAV, goodAV, goodAVMap, isCanonIntCs,
      bigIntSetString10, parseSign, natFromDigits, intToDecCs, natToDigits,
      natToDigitsAux, isDigitCh, digitVal]
  exact ⟨hg, c1_roundtrip_canonical c1SampleAV hg⟩

/-- **C1 counterexample.**  The claim as stated quantifies over every
non-canonical number string too, and fails there: `N "00"` is parsed by
`strconv.ParseInt`, encoded as the integer `0` and decoded back as
`N "0"`; `N "3.14"` goes through the decimal tag and comes back in the
decimal formatter's form `N "314E-2"` (the source's own test file notes
this and tests `314E-2` instead of `3.14`). -/
theorem c1_counterexample :
    roundTripAV (.N "00") = .ok (.N "0") ∧
      roundTripAV (.N "3.14") = .ok (.N "314E-2") ∧
      AttributeValue.N "0" ≠ .N "00" ∧
      AttributeValue.N "314E-2" ≠ .N "3.14" := by
  refine ⟨?_, ?_, by simp, by simp⟩
  · simp +decide [roundTripAV, EncodeAttributeValue, writeStringNumber,
      parseInt64, parseSign, natFromDigits, isDigitCh, digitVal,
      utf8LenCs, cbor.WriteInt64, DecodeAttributeValue, decodeAV,
      cbor.PeekHeader, cbor.hdrByteOf, cbor.minorOf, cbor.majorOfByte,
      cbor.minorOfByte, cbor.UtfMT, cbor.BytesMT, cbor.ArrayMT, cbor.MapMT,
      cbor.PosIntMT, cbor.NegIntMT, cbor.SimpleMT, cbor.TagMT,
      cbor.ReadCborIntegerToString, natToDigits, natToDigitsAux,
      Bind.bind, Except.bind, Except.map]
  · simp +decide [roundTripAV, EncodeAttributeValue, writeStringNumber,
      decimalSetString, parseSign, natFromDigits, isDigitCh, digitVal,
      cbor.WriteDecimal, cbor.WriteInt64, DecodeAttributeValue, decodeAV,
      cbor.PeekHeader, cbor.hdrByteOf, cbor.minorOf, cbor.majorOfByte,
      cbor.minorOfByte, cbor.UtfMT, cbor.BytesMT, cbor.ArrayMT, cbor.MapMT,
      cbor.PosIntMT, cbor.NegIntMT, cbor.SimpleMT, cbor.TagMT,
      cbor.TagPosBigInt, cbor.TagNegBigInt, cbor.TagDecimal,
      cbor.ReadDecimal, cbor.readIntValue, decimalToCs, intToDecCs,
      natToDigits, natToDigitsAux, Bind.bind, Except.bind, Except.map]

/-- **C3** (amended).  `writeStringNumber` branches: a string containing
`.`, `e` or `E` is emitted under the decimal tag when the decimal parser
accepts it and fails with the serialization error otherwise; a string
whose byte length (sign included) exceeds 18 — not its digit count — is
always emitted under a positive/negative big-integer tag, with the
`big.Int.SetString` failure flag ignored, so malformed long strings are
not rejected (the model then writes the value `0`); any other string is
parsed as a signed 64-bit integer and emitted as a positive or negative
integer major type when the parse succeeds, and fails with the
serialization error (covering empty and malformed short strings) when it
does not. -/
theorem c3_number_encoding (cs : List Char) :
    ((cs.any fun c => decide (c = '.' ∨ c = 'e' ∨ c = 'E')) = true →
      (∀ ce, decimalSetString cs = some ce →
        writeStringNumber cs = .ok (cbor.WriteDecimal ce.1 ce.2)) ∧
      (decimalSetString cs = none →
        writeStringNumber cs = .error "invalid number")) ∧
    ((cs.any fun c => decide (c = '.' ∨ c = 'e' ∨ c = 'E')) = false →
      18 < utf8LenCs cs →
      (∀ z, bigIntSetString10 cs = some z →
        writeStringNumber cs = .ok (cbor.WriteBigInt z)) ∧
      (bigIntSetString10 cs = none →
        writeStringNumber cs = .ok (cbor.WriteBigInt 0))) ∧
    ((cs.any fun c => decide (c = '.' ∨ c = 'e' ∨ c = 'E')) = false →
      utf8LenCs cs ≤ 18 →
      (∀ z, parseInt64 cs = some z →
        writeStringNumber cs = .ok (cbor.WriteInt64 z)) ∧
      (parseInt64 cs = none →
        writeStringNumber cs = .error "invalid number")) := by
  refine ⟨?_, ?_, ?_⟩
  · intro hany
    constructor
    · intro ce hce
      rw [writeStringNumber, hany]
      simp [hce]
    · intro hce
      rw [writeStringNumber, hany]
      simp [hce]
  · intro hany hlen
    constructor
    · intro z hz
      rw [writeStringNumber, hany]
      simp [hlen, hz]
    · intro hz
      rw [writeStringNumber, hany]
      simp [hlen, hz]
  · intro hany hlen
    constructor
    · intro z hz
      rw [writeStringNumber, hany]
      simp [Nat.not_lt.mpr hlen, hz]
    · intro hz
      rw [writeStringNumber, hany]
      simp [Nat.not_lt.mpr hlen, hz]

theorem c3_number_encoding_witness :
    (("1e2".toList.any fun c => decide (c = '.' ∨ c = 'e' ∨ c = 'E')) = true ∧
      writeStringNumber "1e2".toList = .ok (cbor.WriteDecimal 1 2)) ∧
    writeStringNumber "7".toList = .ok (cbor.WriteInt64 7) := by
  have h1 := (c3_number_encoding "1e2".toList).1
  have h2 := (c3_number_encoding "7".toList).2.2
  have hany : ("1e2".toList.any fun c => decide (c = '.' ∨ c = 'e' ∨ c = 'E')) = true := by
    decide
  have hdec : decimalSetString "1e2".toList = some (1, 2) := by
    simp +decide [decimalSetString, parseSign, natFromDigits, isDigitCh,
      digitVal]
  have hany2 : ("7".toList.any fun c => decide (c = '.' ∨ c = 'e' ∨ c = 'E')) = false := by
    decide
  have hlen2 : utf8LenCs "7".toList ≤ 18 := by
    simp +decide [utf8LenCs]
  have hp : parseInt64 "7".toList = some 7 := by
    simp +decide [parseInt64, parseSign, natFromDigits, isDigitCh, digitVal]
  exact ⟨⟨hany, ((h1 hany).1 (1, 2)) hdec⟩, ((h2 hany2 hlen2).1 7) hp⟩

/-- **C3 counterexample.**  Two inputs on which the claim as stated
fails.  `"1234567890123456789x"` is malformed and longer than 18 bytes:
the big-int branch ignores the parse failure and encoding succeeds, so
not every malformed string is rejected.  `"-123456789012345678"` has 18
digits (so by the claim it should be emitted as a negative integer major
type) but 19 bytes, so the code emits the big-integer tag instead — a
different wire form. -/
theorem c3_counterexample :
    writeStringNumber "1234567890123456789x".toList = .ok (cbor.WriteBigInt 0) ∧
      writeStringNumber "-123456789012345678".toList =
        .ok (cbor.WriteBigInt (-123456789012345678)) ∧
      cbor.WriteBigInt (-123456789012345678) ≠
        cbor.WriteInt64 (-123456789012345678) := by
  refine ⟨?_, ?_, ?_⟩
  · rw [writeStringNumber]
    have hany : ("1234567890123456789x".toList.any
        fun c => decide (c = '.' ∨ c = 'e' ∨ c = 'E')) = false := by decide
    rw [hany]
    have hlen : 18 < utf8LenCs "1234567890123456789x".toList := by
      simp +decide [utf8LenCs]
    have hbad : bigIntSetString10 "1234567890123456789x".toList = none := by
      simp +decide [bigIntSetString10, parseSign, isDigitCh]
    rw [if_pos hlen, hbad]
    rfl
  · rw [writeStringNumber]
    have hany : ("-123456789012345678".toList.any
        fun c => decide (c = '.' ∨ c = 'e' ∨ c = 'E')) = false := by decide
    rw [hany]
    have hlen : 18 < utf8LenCs "-123456789012345678".toList := by
      simp +decide [utf8LenCs]
    have hok : bigIntSetString10 "-123456789012345678".toList =
        some (-123456789012345678) := by
      simp +decide [bigIntSetString10, parseSign, isDigitCh, natFromDigits,
        digitVal]
    rw [if_pos hlen, hok]
    rfl
  · simp [cbor.WriteBigInt, cbor.WriteInt64, cbor.WriteBytes]

/-! ## Error model for the client

The concrete error structs of the `client` package (`error.go` is not in
the available source; the constructors follow the spec's error taxonomy
and the shapes used by `cluster.go` / the single-client file). -/

inductive DaxErr where
  | ctxCanceled
  | ctxDeadlineExceeded
  | ioError (msg : String)
  | daxRequestFailure (codes : List Nat) (code msg requestID : String)
      (status : Nat) (serverFault : Bool)
  | daxTransactionCanceledFailure (codes : List Nat) (code msg requestID : String)
      (status : Nat)
  | canceledError (cause : DaxErr)
  | operationError (serviceID opName : String) (cause : DaxErr)
  | genericAPIError (code msg : String)
  | simpleError (msg : String)
deriving DecidableEq, Repr

/-- `errors.Is(err, context.Canceled)`: true on `context.Canceled` itself
and through the wrappers the client builds. -/
def errIsCtxCanceled : DaxErr → Bool
  | .ctxCanceled => true
  | .canceledError e => errIsCtxCanceled e
  | .operationError _ _ e => errIsCtxCanceled e
  | _ => false

/-- Modelled from the spec: `isIOError` — a deadline-exceeded or network
error. -/
def isIOError : DaxErr → Bool
  | .ctxDeadlineExceeded => true
  | .ioError _ => true
  | _ => false

/-! ## HealthStatus (enabled variant, health_status.go lines 51–103)

The locking in the source serializes each callback; the embedding is the
resulting state transition.  Each step reports whether it called
`routeListener.removeRoute` / `addRoute`. -/

def timeoutErrorThreshold : Nat := 5

structure EnabledHealthStatus where
  isHealthy : Bool
  curReadTimeoutCount : Nat
deriving DecidableEq, Repr

structure HealthStep where
  state : EnabledHealthStatus
  removedRoute : Bool
  addedRoute : Bool
deriving DecidableEq, Repr

def onErrorInReadRequest (hs : EnabledHealthStatus) (err : DaxErr) : HealthStep :=
  if ¬ isIOError err then ⟨hs, false, false⟩
  else if ¬ hs.isHealthy then ⟨hs, false, false⟩
  else
    let cnt := hs.curReadTimeoutCount + 1
    if timeoutErrorThreshold ≤ cnt then ⟨⟨false, cnt⟩, true, false⟩
    else ⟨⟨hs.isHealthy, cnt⟩, false, false⟩

def onSuccessInReadRequest (hs : EnabledHealthStatus) : HealthStep :=
  if hs.curReadTimeoutCount = 0 ∨ ¬ hs.isHealthy then ⟨hs, false, false⟩
  else ⟨⟨hs.isHealthy, 0⟩, false, false⟩

def onHealthCheckSuccess (hs : EnabledHealthStatus) : HealthStep :=
  if hs.curReadTimeoutCount = 0 ∧ hs.isHealthy then ⟨hs, false, false⟩
  else if ¬ hs.isHealthy then ⟨⟨true, 0⟩, false, true⟩
  else ⟨⟨hs.isHealthy, 0⟩, false, false⟩

/-- **C4.**  For the enabled health status: a read error increments the
timeout count only when it is an I/O error and the route is healthy;
reaching the threshold `5` flips the route to unhealthy and removes the
route; an unhealthy route's counter is frozen by further read errors; and
a read success resets the counter to zero exactly when the route is
healthy and the counter is nonzero. -/
theorem c4_health_status (hs : EnabledHealthStatus) (err : DaxErr) :
    (isIOError err = false → onErrorInReadRequest hs err = ⟨hs, false, false⟩) ∧
    (hs.isHealthy = false → onErrorInReadRequest hs err = ⟨hs, false, false⟩) ∧
    (isIOError err = true → hs.isHealthy = true →
      (onErrorInReadRequest hs err).state.curReadTimeoutCount =
          hs.curReadTimeoutCount + 1 ∧
      (5 ≤ hs.curReadTimeoutCount + 1 →
        (onErrorInReadRequest hs err).state.isHealthy = false ∧
        (onErrorInReadRequest hs err).removedRoute = true) ∧
      (hs.curReadTimeoutCount + 1 < 5 →
        (onErrorInReadRequest hs err).state.isHealthy = true ∧
        (onErrorInReadRequest hs err).removedRoute = false)) ∧
    (hs.isHealthy = true → hs.curReadTimeoutCount ≠ 0 →
      onSuccessInReadRequest hs = ⟨⟨true, 0⟩, false, false⟩) ∧
    (hs.curReadTimeoutCount = 0 ∨ hs.isHealthy = false →
      onSuccessInReadRequest hs = ⟨hs, false, false⟩) := by
  refine ⟨?_, ?_, ?_, ?_, ?_⟩
  · intro h
    simp [onErrorInReadRequest, h]
  · intro h
    by_cases hio : isIOError err = true <;>
      simp [onErrorInReadRequest, hio, h]
  · intro hio hh
    refine ⟨?_, ?_, ?_⟩
    · by_cases hth : 5 ≤ hs.curReadTimeoutCount + 1 <;>
        simp [onErrorInReadRequest, hio, hh, timeoutErrorThreshold, hth]
    · intro hth
      simp [onErrorInReadRequest, hio, hh, timeoutErrorThreshold, hth]
    · intro hth
      simp [onErrorInReadRequest, hio, hh, timeoutErrorThreshold,
        Nat.not_le.mpr hth]
  · intro hh hc
    simp [onSuccessInReadRequest, hh, hc]
  · intro h
    rcases h with h | h <;> simp [onSuccessInReadRequest, h]

theorem c4_health_status_witness :
    ((onErrorInReadRequest ⟨true, 4⟩ (.ioError "timeout")).state.isHealthy = false ∧
      (onErrorInReadRequest ⟨true, 4⟩ (.ioError "timeout")).removedRoute = true) ∧
    onErrorInReadRequest ⟨false, 5⟩ (.ioError "timeout") = ⟨⟨false, 5⟩, false, false⟩ ∧
    onErrorInReadRequest ⟨true, 0⟩ (.daxRequestFailure [0] "" "" "" 400 false) =
      ⟨⟨true, 0⟩, false, false⟩ ∧
    onSuccessInReadRequest ⟨true, 3⟩ = ⟨⟨true, 0⟩, false, false⟩ ∧
    onSuccessInReadRequest ⟨false, 3⟩ = ⟨⟨false, 3⟩, false, false⟩ :=
  ⟨(c4_health_status ⟨true, 4⟩ (.ioError "timeout")).2.2.1 rfl rfl |>.2.1 (by decide),
    (c4_health_status ⟨false, 5⟩ (.ioError "timeout")).2.1 rfl,
    (c4_health_status ⟨true, 0⟩ (.daxRequestFailure [0] "" "" "" 400 false)).1 rfl,
    (c4_health_status ⟨true, 3⟩ .ctxCanceled).2.2.2.1 rfl (by decide),
    (c4_health_status ⟨false, 3⟩ .ctxCanceled).2.2.2.2 (Or.inr rfl)⟩

/-! ## `recycleTube` and the execute pipeline (single-client file) -/

structure Tube where
  id : Nat
  authExpiryUnix : Int
deriving DecidableEq, Repr

inductive TubeFate where
  | put (t : Tube)
  | closeTube (t : Tube)
  | untouched
deriving DecidableEq, Repr

/-- Modelled from the spec: `daxRequestFailure.authError()` — the failure
signals an auth-credential problem iff its code sequence begins with the
authentication-required prefix `4,23,31,33`. -/
def DaxErr.authErrorB : DaxErr → Bool
  | .daxRequestFailure codes _ _ _ _ _ => decide (codes.take 4 = [4, 23, 31, 33])
  | _ => false

/-- The `err.(*daxRequestFailure)` type assertion (the transaction
cancellation failure is a distinct type and does not satisfy it). -/
def DaxErr.isDaxRequestFailure : DaxErr → Bool
  | .daxRequestFailure .. => true
  | _ => false

/-- `SingleDaxClient.recycleTube`: recycle exactly the dax request
failures; on an auth failure, stamp the expiry to now first. -/
def recycleTube (t : Option Tube) (err : Option DaxErr) (now : Int) : TubeFate :=
  match t with
  | none => .untouched
  | some t =>
    match err with
    | none => .put t
    | some e =>
      let ok := e.isDaxRequestFailure
      let t' := if ok && e.authErrorB then { t with authExpiryUnix := now } else t
      if ok then .put t' else .closeTube t'

/-- The outcome of each I/O step of one `executeWithContext` run, as the
pipeline observes it.  `ctxErr` is what `ctx.Err()` returns at the
deadline-setting step. -/
structure ExecEnv where
  acquire : Except DaxErr Tube
  ctxErr : Option DaxErr
  setDeadlineErr : Option DaxErr
  authErr : Option DaxErr
  encodeErr : Option DaxErr
  flushErr : Option DaxErr
  decodeErrorResult : Except DaxErr (Option DaxErr)
  decoderErr : Option DaxErr
  now : Int

/-- `SingleDaxClient.executeWithContext` (metrics omitted): the returned
error (`none` on success) and what happened to the tube.  The source's
`err == ctx.Err()` pointer comparison at the deadline step becomes value
equality with `ctxErr`. -/
def executeWithContext (env : ExecEnv) : Option DaxErr × TubeFate :=
  match env.acquire with
  | .error e => (some e, .untouched)
  | .ok t =>
    match env.setDeadlineErr with
    | some e =>
      if env.ctxErr = some e then (some e, .put t)
      else (some e, .closeTube t)
    | none =>
      match env.authErr with
      | some e => (some e, .closeTube t)
      | none =>
        match env.encodeErr with
        | some e => (some e, .closeTube t)
        | none =>
          match env.flushErr with
          | some e => (some e, .closeTube t)
          | none =>
            match env.decodeErrorResult with
            | .error e => (some e, .closeTube t)
            | .ok (some ex) => (some ex, recycleTube (some t) (some ex) env.now)
            | .ok none =>
              match env.decoderErr with
              | some e => (some e, .closeTube t)
              | none => (none, .put t)

/-- **C5.**  When the error decoder returns a typed server error, the
pipeline surfaces that error; the tube goes back to the pool exactly when
the error is a `daxRequestFailure` (anything else discards it); and for
an auth-credential failure the recycled tube carries `authExpiryUnix =
now`. -/
theorem c5_recycle_on_server_error (env : ExecEnv) (t : Tube) (ex : DaxErr)
    (hacq : env.acquire = .ok t)
    (hdl : env.setDeadlineErr = none)
    (hauth : env.authErr = none)
    (henc : env.encodeErr = none)
    (hfl : env.flushErr = none)
    (hdec : env.decodeErrorResult = .ok (some ex)) :
    (executeWithContext env).1 = some ex ∧
    ((∃ t', (executeWithContext env).2 = .put t') ↔
      ex.isDaxRequestFailure = true) ∧
    (ex.isDaxRequestFailure = true → ex.authErrorB = true →
      (executeWithContext env).2 = .put { t with authExpiryUnix := env.now }) ∧
    (ex.isDaxRequestFailure = false →
      (executeWithContext env).2 = .closeTube t) := by
  have hrun : executeWithContext env = (some ex, recycleTube (some t) (some ex) env.now) := by
    rw [executeWithContext, hacq, hdl, hauth, henc, hfl, hdec]
  refine ⟨by rw [hrun], ?_, ?_, ?_⟩
  · rw [hrun]
    constructor
    · rintro ⟨t', ht'⟩
      by_cases hok : ex.isDaxRequestFailure = true
      · exact hok
      · simp [recycleTube, hok] at ht'
    · intro hok
      by_cases ha : ex.authErrorB = true
      · refine ⟨{ t with authExpiryUnix := env.now }, ?_⟩
        simp [recycleTube, hok, ha]
      · refine ⟨t, ?_⟩
        simp [recycleTube, hok, ha]
  · intro hok ha
    rw [hrun]
    simp [recycleTube, hok, ha]
  · intro hok
    rw [hrun]
    simp [recycleTube, hok]

theorem c5_recycle_on_server_error_witness :
    (executeWithContext
        { acquire := .ok ⟨7, 100⟩, ctxErr := none, setDeadlineErr := none,
          authErr := none, encodeErr := none, flushErr := none,
          decodeErrorResult := .ok (some (.daxRequestFailure [4, 23, 31, 33]
            "AuthenticationRequiredException" "" "" 401 true)),
          decoderErr := none, now := 555 }).2 = .put ⟨7, 555⟩ ∧
    (executeWithContext
        { acquire := .ok ⟨7, 100⟩, ctxErr := none, setDeadlineErr := none,
          authErr := none, encodeErr := none, flushErr := none,
          decodeErrorResult := .ok (some (.ioError "read")),
          decoderErr := none, now := 555 }).2 = .closeTube ⟨7, 100⟩ := by
  constructor
  · exact (c5_recycle_on_server_error _ ⟨7, 100⟩ _ rfl rfl rfl rfl rfl rfl).2.2.1
      (by decide) (by decide)
  · exact (c5_recycle_on_server_error _ ⟨7, 100⟩ _ rfl rfl rfl rfl rfl rfl).2.2.2
      (by decide)

/-! ## Retry loops -/

/-- The `service` constant of the client package. -/
def service : String := "dax"

/-- The two request-option fields the retry loops read. -/
structure RequestOptions where
  retryMaxAttempts : Int
  retryDelay : Nat
deriving DecidableEq, Repr

/-- Modelled from the spec and the sleep test: `SleepWithContext` sleeps
(cancellably) and returns nil while the context is alive; when the
context is done it returns an operation error wrapping `ctx.Err()`. -/
def SleepWithContext (ctxErr : Option DaxErr) (opName : String) (_delay : Nat) :
    Option DaxErr :=
  match ctxErr with
  | some e => some (.operationError service opName e)
  | none => none

/-- The `daxError` interface (implemented by the two failure structs). -/
def DaxErr.isDaxErrorType : DaxErr → Bool
  | .daxRequestFailure .. => true
  | .daxTransactionCanceledFailure .. => true
  | _ => false

/-- Modelled from the spec and the single-client tests: `translateError`
keeps typed API and dax errors unchanged and wraps everything else into a
`daxRequestFailure` with code sequence `{0}`, code `ErrCodeUnknown` and
status 400. -/
def translateError : DaxErr → DaxErr
  | e@(.daxRequestFailure ..) => e
  | e@(.daxTransactionCanceledFailure ..) => e
  | e@(.genericAPIError ..) => e
  | _ => .daxRequestFailure [0] "ErrCodeUnknown" "unknown error" "" 400 false

/-- Modelled from the spec (§4.4) and the retryer tests:
`DaxRetryer.IsErrorRetryable` — a `daxRequestFailure` whose code sequence
begins with `{1}`, `{2}` or `{4,23,31,33}`, or a throttling failure;
nothing else is retryable. -/
def DaxRetryerIsErrorRetryable : DaxErr → Bool
  | .daxRequestFailure codes code _ _ _ _ =>
    decide (codes.take 1 = [1]) || decide (codes.take 1 = [2]) ||
    decide (codes.take 4 = [4, 23, 31, 33]) ||
    decide (codes.take 5 = [4, 37, 38, 39, 50]) ||
    decide (code = "ThrottlingException")
  | _ => false

/-- Per-run inputs of `ClusterDaxClient.retry`: the route chosen at each
iteration, the outcome of each action call, the retryer's backoff, the
retryability predicate (`isRetryable`), the context state, and the §4.5
error translation applied by the deferred conversion. -/
structure ClusterRetryEnv where
  clientFor : Nat → Except DaxErr Nat
  actionRes : Nat → Option DaxErr
  retryerDelay : Nat → DaxErr → Nat
  isRetryableFn : RequestOptions → DaxErr → Bool
  ctxErr : Option DaxErr
  convertDaxError : DaxErr → DaxErr
  opName : String

structure ClusterRetryResult where
  err : Option DaxErr
  actionCalls : Nat
  innerMaxAttempts : List Int
deriving Repr

/-- The loop body of `ClusterDaxClient.retry`, one recursive step per
iteration of `for i := 0; i <= attempts; i++`.  `remaining` counts the
iterations left, `calls` the action calls made so far, and
`innerMaxAttempts` records the `RetryMaxAttempts` field of the options
passed to each action call. -/
def clusterRetryGo (env : ClusterRetryEnv) (opt : RequestOptions) (attempts : Int) :
    Nat → Nat → Nat → List Int → Option DaxErr → ClusterRetryResult
  | 0, _, calls, seen, lastErr => ⟨lastErr, calls, seen⟩
  | remaining + 1, i, calls, seen, _ =>
    match env.clientFor i with
    | .error e =>
      if ¬ env.isRetryableFn opt e then ⟨some e, calls, seen⟩
      else if (i : Int) ≠ attempts then
        let d0 := env.retryerDelay (i + 1) e
        let delay := if d0 = 0 then opt.retryDelay else d0
        if 0 < delay then
          match SleepWithContext env.ctxErr env.opName delay with
          | some sleepErr => ⟨some sleepErr, calls, seen⟩
          | none => clusterRetryGo env opt attempts remaining (i + 1) calls seen (some e)
        else clusterRetryGo env opt attempts remaining (i + 1) calls seen (some e)
      else clusterRetryGo env opt attempts remaining (i + 1) calls seen (some e)
    | .ok _ =>
      match env.actionRes calls with
      | none => ⟨none, calls + 1, seen ++ [opt.retryMaxAttempts]⟩
      | some err =>
        if ¬ env.isRetryableFn opt err then
          ⟨some err, calls + 1, seen ++ [opt.retryMaxAttempts]⟩
        else if (i : Int) ≠ attempts then
          let d0 := env.retryerDelay (i + 1) err
          let delay := if d0 = 0 then opt.retryDelay else d0
          if 0 < delay then
            match SleepWithContext env.ctxErr env.opName delay with
            | some sleepErr =>
              ⟨some sleepErr, calls + 1, seen ++ [opt.retryMaxAttempts]⟩
            | none =>
              clusterRetryGo env opt attempts remaining (i + 1) (calls + 1)
                (seen ++ [opt.retryMaxAttempts]) (some err)
          else
            clusterRetryGo env opt attempts remaining (i + 1) (calls + 1)
              (seen ++ [opt.retryMaxAttempts]) (some err)
        else
          clusterRetryGo env opt attempts remaining (i + 1) (calls + 1)
            (seen ++ [opt.retryMaxAttempts]) (some err)

/-- `ClusterDaxClient.retry`: captures `attempts`, zeroes
`RetryMaxAttempts` for the per-node calls, runs the loop, and applies the
deferred `convertDaxError` to a `daxError`-typed result. -/
def ClusterDaxClientRetry (env : ClusterRetryEnv) (opt : RequestOptions) :
    ClusterRetryResult :=
  let attempts := opt.retryMaxAttempts
  let optInner := { opt with retryMaxAttempts := 0 }
  let res := clusterRetryGo env optInner attempts (attempts + 1).toNat 0 0 [] none
  match res.err with
  | some e =>
    if e.isDaxErrorType then { res with err := some (env.convertDaxError e) }
    else res
  | none => res

structure SingleRetryEnv where
  execRes : Nat → Option DaxErr
  ctxErr : Option DaxErr
  opName : String

structure SingleRetryResult where
  err : Option DaxErr
  execCalls : Nat
deriving DecidableEq, Repr

/-- The loop of `SingleDaxClient.executeWithRetries`: each iteration runs
`executeWithContext`; a `context.Canceled` error returns immediately as a
`smithy.CanceledError`; otherwise, when retries remain, the loop sleeps
(returning an operation error if the sleep is cut short) and retries; the
last error is passed through `translateError`. -/
def singleRetryGo (env : SingleRetryEnv) (opt : RequestOptions) (attempts : Int) :
    Nat → Nat → Option DaxErr → SingleRetryResult
  | 0, _, lastErr => ⟨lastErr.map translateError, 0⟩
  | remaining + 1, i, _ =>
    match env.execRes i with
    | none => ⟨none, 1⟩
    | some err =>
      if errIsCtxCanceled err then ⟨some (.canceledError err), 1⟩
      else if (i : Int) ≠ attempts then
        match SleepWithContext env.ctxErr env.opName opt.retryDelay with
        | some sleepErr =>
          ⟨some (.operationError service env.opName sleepErr), 1⟩
        | none =>
          let r := singleRetryGo env opt attempts remaining (i + 1) (some err)
          ⟨r.err, r.execCalls + 1⟩
      else
        let r := singleRetryGo env opt attempts remaining (i + 1) (some err)
        ⟨r.err, r.execCalls + 1⟩

def SingleExecuteWithRetries (env : SingleRetryEnv) (opt : RequestOptions) :
    SingleRetryResult :=
  singleRetryGo env opt opt.retryMaxAttempts (opt.retryMaxAttempts + 1).toNat 0 none

theorem clusterRetryGo_calls_bound (env : ClusterRetryEnv) (opt : RequestOptions)
    (attempts : Int) :
    ∀ remaining i calls seen lastErr,
      (clusterRetryGo env opt attempts remaining i calls seen lastErr).actionCalls
        ≤ calls + remaining := by
  intro remaining
  induction remaining with
  | zero =>
    intro i calls seen lastErr
    simp [clusterRetryGo]
  | succ rem ih =>
    intro i calls seen lastErr
    simp only [clusterRetryGo]
    repeat' split
    all_goals first
      | (dsimp only; omega)
      | (exact le_trans (ih (i + 1) calls _ _) (by omega))
      | (exact le_trans (ih (i + 1) (calls + 1) _ _) (by omega))

theorem clusterRetryGo_inner_opts (env : ClusterRetryEnv) (opt : RequestOptions)
    (attempts : Int) :
    ∀ remaining i calls seen lastErr,
      (∀ x ∈ seen, x = opt.retryMaxAttempts) →
      ∀ x ∈ (clusterRetryGo env opt attempts remaining i calls seen
          lastErr).innerMaxAttempts, x = opt.retryMaxAttempts := by
  intro remaining
  induction remaining with
  | zero =>
    intro i calls seen lastErr hs
    simpa [clusterRetryGo] using hs
  | succ rem ih =>
    intro i calls seen lastErr hs
    have hs' : ∀ x ∈ seen ++ [opt.retryMaxAttempts], x = opt.retryMaxAttempts := by
      intro x hx
      rcases List.mem_append.mp hx with h1 | h1
      · exact hs x h1
      · simpa using h1
    simp only [clusterRetryGo]
    repeat' split
    all_goals first
      | (dsimp only; exact hs)
      | (dsimp only; exact hs')
      | (exact ih _ _ _ _ hs)
      | (exact ih _ _ _ _ hs')

theorem singleRetryGo_calls_bound (env : SingleRetryEnv) (opt : RequestOptions)
    (attempts : Int) :
    ∀ remaining i lastErr,
      (singleRetryGo env opt attempts remaining i lastErr).execCalls ≤ remaining := by
  intro remaining
  induction remaining with
  | zero =>
    intro i lastErr
    simp [singleRetryGo]
  | succ rem ih =>
    intro i lastErr
    simp only [singleRetryGo]
    repeat' split
    all_goals first
      | (dsimp only; omega)
      | (dsimp only; exact Nat.succ_le_succ (ih _ _))

/-- **C6.**  The outer cluster retry makes at most `RetryMaxAttempts + 1`
action calls in total; every per-node call is issued with
`RetryMaxAttempts = 0`; and a per-node client run with
`RetryMaxAttempts = 0` performs at most one `executeWithContext` call, so
it does no retrying of its own. -/
theorem c6_retry_attempts (env : ClusterRetryEnv) (opt : RequestOptions) :
    (ClusterDaxClientRetry env opt).actionCalls ≤
      (opt.retryMaxAttempts + 1).toNat ∧
    (∀ x ∈ (ClusterDaxClientRetry env opt).innerMaxAttempts, x = 0) ∧
    (∀ senv : SingleRetryEnv, ∀ optInner : RequestOptions,
      optInner.retryMaxAttempts = 0 →
      (SingleExecuteWithRetries senv optInner).execCalls ≤ 1) := by
  have hbase := clusterRetryGo_calls_bound env { opt with retryMaxAttempts := 0 }
    opt.retryMaxAttempts (opt.retryMaxAttempts + 1).toNat 0 0 [] none
  have hopts := clusterRetryGo_inner_opts env { opt with retryMaxAttempts := 0 }
    opt.retryMaxAttempts (opt.retryMaxAttempts + 1).toNat 0 0 [] none
    (by intro x hx; cases hx)
  refine ⟨?_, ?_, ?_⟩
  · rw [ClusterDaxClientRetry]
    split <;> try (split <;> simpa using hbase)
    simpa using hbase
  · rw [ClusterDaxClientRetry]
    split <;> try (split <;> simpa using hopts)
    simpa using hopts
  · intro senv optInner h0
    rw [SingleExecuteWithRetries, h0]
    have := singleRetryGo_calls_bound senv optInner 0 ((0 : Int) + 1).toNat 0 none
    simpa using this

theorem c6_retry_attempts_witness :
    (ClusterDaxClientRetry
        { clientFor := fun _ => .ok 1,
          actionRes := fun _ => some (.daxRequestFailure [1] "" "" "" 500 true),
          retryerDelay := fun _ _ => 0,
          isRetryableFn := fun _ e => DaxRetryerIsErrorRetryable e,
          ctxErr := none, convertDaxError := id,
          opName := "op" }
        { retryMaxAttempts := 2, retryDelay := 0 }).actionCalls ≤ 3 ∧
    (SingleExecuteWithRetries
        { execRes := fun _ => some (.ioError "io"), ctxErr := none,
          opName := "op" }
        { retryMaxAttempts := 0, retryDelay := 0 }).execCalls ≤ 1 :=
  ⟨(c6_retry_attempts _ _).1,
    (c6_retry_attempts
      { clientFor := fun _ => .ok 1,
        actionRes := fun _ => some (.daxRequestFailure [1] "" "" "" 500 true),
        retryerDelay := fun _ _ => 0,
        isRetryableFn := fun _ e => DaxRetryerIsErrorRetryable e,
        ctxErr := none, convertDaxError := id,
        opName := "op" }
      { retryMaxAttempts := 2, retryDelay := 0 }).2.2 _ _ rfl⟩

/-- **C7** (amended).  In both retry loops an error caused by context
cancellation is returned immediately — after a single call, wrapped as a
canceled error carrying the original cause.  An error caused by context
deadline expiry likewise consumes no further attempts, but when retries
remain the single-client loop returns it from the cancelled backoff sleep
wrapped in operation errors, not as a canceled error. -/
theorem c7_cancellation (e : DaxErr) :
    (∀ (env : SingleRetryEnv) (opt : RequestOptions),
      0 ≤ opt.retryMaxAttempts →
      env.execRes 0 = some e → errIsCtxCanceled e = true →
      SingleExecuteWithRetries env opt = ⟨some (.canceledError e), 1⟩) ∧
    (∀ (env : SingleRetryEnv) (opt : RequestOptions),
      1 ≤ opt.retryMaxAttempts →
      env.execRes 0 = some .ctxDeadlineExceeded →
      env.ctxErr = some .ctxDeadlineExceeded →
      SingleExecuteWithRetries env opt =
        ⟨some (.operationError service env.opName
          (.operationError service env.opName .ctxDeadlineExceeded)), 1⟩) ∧
    (∀ (env : ClusterRetryEnv) (opt : RequestOptions) (c : Nat),
      0 ≤ opt.retryMaxAttempts →
      env.clientFor 0 = .ok c →
      env.actionRes 0 = some (.canceledError e) →
      env.isRetryableFn = (fun _ x => DaxRetryerIsErrorRetryable x) →
      ClusterDaxClientRetry env opt = ⟨some (.canceledError e), 1, [0]⟩) := by
  refine ⟨?_, ?_, ?_⟩
  · intro env opt hpos hexec hcanc
    rw [SingleExecuteWithRetries]
    obtain ⟨k, hk⟩ : ∃ k, (opt.retryMaxAttempts + 1).toNat = k + 1 :=
      ⟨(opt.retryMaxAttempts + 1).toNat - 1, by omega⟩
    rw [hk]
    simp only [singleRetryGo, hexec, hcanc, if_true]
  · intro env opt hpos hexec hctx
    rw [SingleExecuteWithRetries]
    obtain ⟨k, hk⟩ : ∃ k, (opt.retryMaxAttempts + 1).toNat = k + 1 :=
      ⟨(opt.retryMaxAttempts + 1).toNat - 1, by omega⟩
    rw [hk]
    have hne : ((0 : Nat) : Int) ≠ opt.retryMaxAttempts := by omega
    simp only [singleRetryGo, hexec, hctx, hne, SleepWithContext,
      errIsCtxCanceled, Bool.false_eq_true, if_false, if_true, ite_true,
      ite_false]
    simp
    intro h0
    exact absurd h0 (by omega)
  · intro env opt c hpos hcf hact hretry
    rw [ClusterDaxClientRetry]
    obtain ⟨k, hk⟩ : ∃ k, (opt.retryMaxAttempts + 1).toNat = k + 1 :=
      ⟨(opt.retryMaxAttempts + 1).toNat - 1, by omega⟩
    rw [hk]
    simp only [clusterRetryGo, hcf, hact, hretry]
    simp [DaxRetryerIsErrorRetryable, DaxErr.isDaxErrorType]

def c7CexEnv : SingleRetryEnv :=
  { execRes := fun _ => some .ctxDeadlineExceeded,
    ctxErr := some .ctxDeadlineExceeded,
    opName := "GetItem" }

def c7CexOpt : RequestOptions := { retryMaxAttempts := 1, retryDelay := 0 }

def DaxErr.isCanceledErr : DaxErr → Bool
  | .canceledError _ => true
  | _ => false

/-- **C7 counterexample.**  A deadline-expired context inside the
single-client loop with one retry configured: the loop returns an
`OperationError` wrapping the deadline error (through the failed sleep),
not a canceled error, contradicting the claim that deadline-expiry errors
are returned "as a canceled error". -/
theorem c7_counterexample :
    SingleExecuteWithRetries c7CexEnv c7CexOpt =
      ⟨some (.operationError "dax" "GetItem"
        (.operationError "dax" "GetItem" .ctxDeadlineExceeded)), 1⟩ ∧
    (SingleExecuteWithRetries c7CexEnv c7CexOpt).err.map DaxErr.isCanceledErr =
      some false := by
  have h := (c7_cancellation .ctxCanceled).2.1 c7CexEnv c7CexOpt
    (by decide) rfl rfl
  refine ⟨?_, ?_⟩
  · simpa [service, c7CexEnv] using h
  · rw [h]
    rfl

theorem c7_cancellation_witness :
    SingleExecuteWithRetries
        { execRes := fun _ => some .ctxCanceled, ctxErr := some .ctxCanceled,
          opName := "Query" }
        { retryMaxAttempts := 2, retryDelay := 0 } =
      ⟨some (.canceledError .ctxCanceled), 1⟩ ∧
    ClusterDaxClientRetry
        { clientFor := fun _ => .ok 3,
          actionRes := fun _ => some (.canceledError .ctxCanceled),
          retryerDelay := fun _ _ => 0,
          isRetryableFn := fun _ x => DaxRetryerIsErrorRetryable x,
          ctxErr := some .ctxCanceled, convertDaxError := id,
          opName := "Query" }
        { retryMaxAttempts := 2, retryDelay := 0 } =
      ⟨some (.canceledError .ctxCanceled), 1, [0]⟩ :=
  ⟨(c7_cancellation .ctxCanceled).1 _ _ (by decide) rfl rfl,
    (c7_cancellation .ctxCanceled).2.2 _ _ 3 (by decide) rfl rfl rfl⟩

/-! ## Seed endpoint parsing (`parseHostPort`, `getHostPorts`,
cluster.go lines 431–517) -/

/-- `strings.Index(s, sub) != -1`: some suffix of `s` starts with `sub`. -/
def hasSubstr (sub : List Char) : List Char → Bool
  | [] => sub.isEmpty
  | c :: rest => sub.isPrefixOf (c :: rest) || hasSubstr sub rest

def validSchemeChar (c : Char) : Bool :=
  c.isAlpha || isDigitCh c || c = '+' || c = '-' || c = '.'

/-- The slice of `net/url.ParseRequestURI` the source exercises: a
`scheme://authority` string (no path for seed endpoints).  Returns
(scheme, hostname, port digits — empty when absent); the port is split at
the last `':'` of the authority and must be numeric, as `url.Parse`
validates. -/
def parseRequestURI (cs : List Char) : Except DaxErr (List Char × List Char × List Char) :=
  let scheme := cs.takeWhile (· ≠ ':')
  let rest := cs.drop scheme.length
  match scheme, rest with
  | c :: sRest, ':' :: '/' :: '/' :: authTail =>
    if ¬ (c.isAlpha && sRest.all validSchemeChar) then
      .error (.simpleError "parse: invalid URI scheme")
    else
      let auth := authTail.takeWhile (· ≠ '/')
      let revPort := auth.reverse.takeWhile (· ≠ ':')
      if revPort.length = auth.length then
        .ok (c :: sRest, auth, [])
      else
        let portCs := revPort.reverse
        if portCs.all isDigitCh then
          .ok (c :: sRest, auth.take (auth.length - portCs.length - 1), portCs)
        else .error (.simpleError "parse: invalid port")
  | _, _ => .error (.simpleError "parse: invalid URI")

/-- The process-wide default port map (`dax` → 8111, `daxs` → 9111). -/
def defaultPorts (scheme : List Char) : Int :=
  if scheme = "dax".toList then 8111
  else if scheme = "daxs".toList then 9111
  else 0

def defaultPortsContains (scheme : List Char) : Bool :=
  decide (scheme = "dax".toList) || decide (scheme = "daxs".toList)

/-- `parseHostPort` from cluster.go: a seed without `"://"` must contain
a `':'` (else parameter validation fails) and gets `dax://` prepended;
the URI is parsed; an empty host fails; a missing/unparseable port falls
back to the scheme's default; and a scheme outside the default-port map
fails parameter validation. -/
def parseHostPort (s : String) : Except DaxErr (List Char × Int × List Char) :=
  let cs := s.toList
  if ¬ hasSubstr "://".toList cs ∧ ¬ cs.contains ':' then
    .error (.genericAPIError "InvalidParameter" (s ++ "Invalid hostport."))
  else
    let uriString := if hasSubstr "://".toList cs then cs else "dax://".toList ++ cs
    match parseRequestURI uriString with
    | .error e => .error e
    | .ok (scheme, host, portStr) =>
      if host = [] then
        .error (.genericAPIError "InvalidParameter" "Invalid hostport")
      else
        let port :=
          match parseInt64 portStr with
          | some p => p
          | none => defaultPorts scheme
        if ¬ defaultPortsContains scheme then
          .error (.genericAPIError "InvalidParameter" "URL scheme must be one of [dax daxs]")
        else .ok (host, port, scheme)

/-- The loop of `getHostPorts`: scheme-consistency tracking via
`isEncrypted`, with the single-encrypted-endpoint restriction. -/
def getHostPortsGo : List String → Nat → List (List Char × Int) → List Char → Bool →
    Except DaxErr (List (List Char × Int) × List Char × Bool)
  | [], _, out, hostname, isEncrypted => .ok (out, hostname, isEncrypted)
  | hp :: rest, i, out, _, isEncrypted =>
    match parseHostPort hp with
    | .error e => .error e
    | .ok (host, port, scheme) =>
      let check : Except DaxErr Bool :=
        if isEncrypted ≠ decide (scheme = "daxs".toList) then
          if i = 0 then .ok true
          else .error (.genericAPIError "InvalidParameter"
            "Inconsistency between the schemes of provided endpoints")
        else .ok isEncrypted
      match check with
      | .error e => .error e
      | .ok isEncrypted2 =>
        if scheme = "daxs".toList ∧ 0 < i then
          .error (.genericAPIError "InvalidParameter"
            "Only one cluster discovery endpoint may be provided for encrypted cluster")
        else getHostPortsGo rest (i + 1) (out ++ [(host, port)]) host isEncrypted2

def getHostPorts (hosts : List String) :
    Except DaxErr (List (List Char × Int) × List Char × Bool) :=
  getHostPortsGo hosts 0 [] [] false

theorem takeWhile_eq_self_of_all (p : Char → Bool) (l : List Char)
    (h : ∀ c ∈ l, p c = true) : l.takeWhile p = l := by
  induction l with
  | nil => rfl
  | cons c rest ih =>
    rw [List.takeWhile_cons, h c (by simp)]
    simp [ih fun x hx => h x (by simp [hx])]

theorem takeWhile_append_stop (p : Char → Bool) (xs : List Char) (y : Char)
    (ys : List Char) (hall : ∀ c ∈ xs, p c = true) (hy : p y = false) :
    (xs ++ y :: ys).takeWhile p = xs := by
  induction xs with
  | nil => simp [List.takeWhile_cons, hy]
  | cons c rest ih =>
    rw [List.cons_append, List.takeWhile_cons, hall c (by simp)]
    simp [ih fun x hx => hall x (by simp [hx])]

theorem isPrefixOf_append_self (xs ys : List Char) :
    xs.isPrefixOf (xs ++ ys) = true := by
  induction xs with
  | nil => simp [List.isPrefixOf]
  | cons c rest ih => simp [List.isPrefixOf, ih]

theorem isPrefixOf_mem (xs : List Char) :
    ∀ l, xs.isPrefixOf l = true → ∀ c ∈ xs, c ∈ l := by
  induction xs with
  | nil => intro l _ c hc; cases hc
  | cons x rest ih =>
    intro l hp c hc
    cases l with
    | nil => simp [List.isPrefixOf] at hp
    | cons y ys =>
      simp only [List.isPrefixOf, Bool.and_eq_true, beq_iff_eq] at hp
      rcases List.mem_cons.mp hc with h1 | h1
      · simp [h1, hp.1]
      · exact List.mem_cons.mpr (Or.inr (ih ys hp.2 c h1))

theorem hasSubstr_nil (l : List Char) : hasSubstr [] l = true := by
  cases l <;> simp [hasSubstr, List.isPrefixOf]

theorem hasSubstr_parts (sub pre suf : List Char) :
    hasSubstr sub (pre ++ (sub ++ suf)) = true := by
  induction pre with
  | nil =>
    cases sub with
    | nil => simpa using hasSubstr_nil suf
    | cons c rest =>
      simp only [List.nil_append, List.cons_append, hasSubstr, List.append_eq]
      have h := isPrefixOf_append_self (c :: rest) suf
      simp only [List.cons_append] at h
      simp [h]
  | cons c rest ih =>
    simp only [List.cons_append, hasSubstr, List.append_eq]
    simp [ih]

theorem hasSubstr_subset (sub : List Char) :
    ∀ l, hasSubstr sub l = true → ∀ c ∈ sub, c ∈ l := by
  intro l
  induction l with
  | nil =>
    intro h c hc
    cases sub with
    | nil => cases hc
    | cons x xs => simp [hasSubstr] at h
  | cons y ys ih =>
    intro h c hc
    simp only [hasSubstr, Bool.or_eq_true] at h
    rcases h with h | h
    · exact isPrefixOf_mem sub _ h c hc
    · exact List.mem_cons.mpr (Or.inr (ih h c hc))

/-- Hosts a seed may carry: nonempty, and free of the separator
characters. -/
def goodHostCs (h : List Char) : Bool :=
  decide (h ≠ []) && h.all fun c => decide (c ≠ ':') && decide (c ≠ '/')

theorem no_slash_no_substr (cs : List Char) (h : '/' ∉ cs) :
    hasSubstr "://".toList cs = false := by
  by_contra hcon
  have := hasSubstr_subset "://".toList cs
    (by revert hcon; cases hasSubstr "://".toList cs <;> simp) '/' (by decide)
  exact h this

theorem validSchemeChar_ne_colon {c : Char} (h : validSchemeChar c = true) :
    c ≠ ':' := by
  intro he
  subst he
  simp [validSchemeChar, isDigitCh] at h

theorem goodHostCs_props {h : List Char} (hg : goodHostCs h = true) :
    h ≠ [] ∧ (∀ c ∈ h, c ≠ ':') ∧ ∀ c ∈ h, c ≠ '/' := by
  simp only [goodHostCs, Bool.and_eq_true, decide_eq_true_eq, List.all_eq_true] at hg
  exact ⟨hg.1, fun c hc => (hg.2 c hc).1, fun c hc => (hg.2 c hc).2⟩

/-- `parseRequestURI` on `scheme://host` (no port). -/
theorem parseRequestURI_noPort (c : Char) (sRest host : List Char)
    (hca : c.isAlpha = true) (hsr : sRest.all validSchemeChar = true)
    (hh : goodHostCs host = true) :
    parseRequestURI ((c :: sRest) ++ "://".toList ++ host) =
      .ok (c :: sRest, host, []) := by
  obtain ⟨hne, hnc, hns⟩ := goodHostCs_props hh
  have hschemeCs : ∀ x ∈ c :: sRest, decide (x ≠ ':') = true := by
    intro x hx
    rcases List.mem_cons.mp hx with h1 | h1
    · subst h1
      simp only [decide_eq_true_eq]
      intro he
      subst he
      simp [Char.isAlpha, Char.isLower, Char.isUpper] at hca
    · simpa using validSchemeChar_ne_colon (List.all_eq_true.mp hsr x h1)
  have hshape : (c :: sRest) ++ "://".toList ++ host =
      (c :: sRest) ++ ':' :: '/' :: '/' :: host := by
    simp
  rw [parseRequestURI, hshape]
  rw [takeWhile_append_stop _ (c :: sRest) ':' ('/' :: '/' :: host) hschemeCs
    (by simp)]
  rw [List.drop_left]
  simp only [hca, hsr, Bool.and_self, Bool.not_true, Bool.false_eq_true,
    if_false]
  rw [takeWhile_eq_self_of_all _ host (by
    intro x hx
    simpa using hns x hx)]
  rw [takeWhile_eq_self_of_all _ host.reverse (by
    intro x hx
    simpa using hnc x (List.mem_reverse.mp hx))]
  simp

/-- `parseRequestURI` on `scheme://host:digits`. -/
theorem parseRequestURI_withPort (c : Char) (sRest host digits : List Char)
    (hca : c.isAlpha = true) (hsr : sRest.all validSchemeChar = true)
    (hh : goodHostCs host = true)
    (hdall : digits.all isDigitCh = true) :
    parseRequestURI ((c :: sRest) ++ "://".toList ++ host ++ ':' :: digits) =
      .ok (c :: sRest, host, digits) := by
  obtain ⟨hne, hnc, hns⟩ := goodHostCs_props hh
  have hdigit : ∀ x ∈ digits, isDigitCh x = true := List.all_eq_true.mp hdall
  have hschemeCs : ∀ x ∈ c :: sRest, decide (x ≠ ':') = true := by
    intro x hx
    rcases List.mem_cons.mp hx with h1 | h1
    · subst h1
      simp only [decide_eq_true_eq]
      intro he
      subst he
      simp [Char.isAlpha, Char.isLower, Char.isUpper] at hca
    · simpa using validSchemeChar_ne_colon (List.all_eq_true.mp hsr x h1)
  have hshape : (c :: sRest) ++ "://".toList ++ host ++ ':' :: digits =
      (c :: sRest) ++ ':' :: '/' :: '/' :: (host ++ ':' :: digits) := by
    simp
  rw [parseRequestURI, hshape]
  rw [takeWhile_append_stop _ (c :: sRest) ':'
    ('/' :: '/' :: (host ++ ':' :: digits)) hschemeCs (by simp)]
  rw [List.drop_left]
  simp only [hca, hsr, Bool.and_self, Bool.not_true, Bool.false_eq_true,
    if_false]
  have hauth : (host ++ ':' :: digits).takeWhile (fun x => decide (x ≠ '/')) =
      host ++ ':' :: digits := by
    apply takeWhile_eq_self_of_all
    intro x hx
    rcases List.mem_append.mp hx with h1 | h1
    · simpa using hns x h1
    · rcases List.mem_cons.mp h1 with h2 | h2
      · subst h2; decide
      · have := hdigit x h2
        simp only [decide_eq_true_eq]
        intro he
        subst he
        simp [isDigitCh] at this
  rw [hauth]
  have hrev : (host ++ ':' :: digits).reverse =
      digits.reverse ++ ':' :: host.reverse := by
    simp
  rw [hrev]
  have hrevPort : (digits.reverse ++ ':' :: host.reverse).takeWhile
      (fun x => decide (x ≠ ':')) = digits.reverse := by
    apply takeWhile_append_stop
    · intro x hx
      have := hdigit x (List.mem_reverse.mp hx)
      simp only [decide_eq_true_eq]
      intro he
      subst he
      simp [isDigitCh] at this
    · simp
  rw [hrevPort]
  have hlen : digits.reverse.length ≠ (host ++ ':' :: digits).length := by
    simp
    omega
  rw [if_neg hlen]
  simp only [List.reverse_reverse, hdall, if_true]
  have htake : (host ++ ':' :: digits).take
      ((host ++ ':' :: digits).length - digits.length - 1) = host := by
    have harith : (host ++ ':' :: digits).length - digits.length - 1 =
        host.length := by
      simp
      omega
    rw [harith]
    exact List.take_left host (':' :: digits)
  rw [htake]
  simp

theorem toList_mk (cs : List Char) : (⟨cs⟩ : String).toList = cs := rfl

theorem parseHostPort_scheme_noPort (c : Char) (sRest host : List Char)
    (hca : c.isAlpha = true) (hsr : sRest.all validSchemeChar = true)
    (hh : goodHostCs host = true) :
    parseHostPort ⟨(c :: sRest) ++ "://".toList ++ host⟩ =
      if ¬ defaultPortsContains (c :: sRest) then
        .error (.genericAPIError "InvalidParameter"
          "URL scheme must be one of [dax daxs]")
      else .ok (host, defaultPorts (c :: sRest), c :: sRest) := by
  obtain ⟨hne, _, _⟩ := goodHostCs_props hh
  have hsub : hasSubstr "://".toList ((c :: sRest) ++ "://".toList ++ host) = true := by
    have := hasSubstr_parts "://".toList (c :: sRest) host
    simpa [List.append_assoc] using this
  rw [parseHostPort]
  simp only [toList_mk, hsub, Bool.not_true, false_and, Bool.false_eq_true,
    if_false, if_true, ite_true, ite_false, not_true_eq_false]
  rw [parseRequestURI_noPort c sRest host hca hsr hh]
  have hp0 : parseInt64 [] = (none : Option Int) := by
    simp [parseInt64, parseSign]
  by_cases hm : defaultPortsContains (c :: sRest) = true
  · simp [hm, if_neg hne, hp0]
  · simp [hm, if_neg hne]

theorem parseHostPort_scheme_withPort (c : Char) (sRest host digits : List Char)
    (p : Int)
    (hca : c.isAlpha = true) (hsr : sRest.all validSchemeChar = true)
    (hh : goodHostCs host = true) (hdall : digits.all isDigitCh = true)
    (hp : parseInt64 digits = some p) :
    parseHostPort ⟨(c :: sRest) ++ "://".toList ++ host ++ ':' :: digits⟩ =
      if ¬ defaultPortsContains (c :: sRest) then
        .error (.genericAPIError "InvalidParameter"
          "URL scheme must be one of [dax daxs]")
      else .ok (host, p, c :: sRest) := by
  obtain ⟨hne, _, _⟩ := goodHostCs_props hh
  have hsub : hasSubstr "://".toList
      ((c :: sRest) ++ "://".toList ++ host ++ ':' :: digits) = true := by
    have := hasSubstr_parts "://".toList (c :: sRest) (host ++ ':' :: digits)
    simpa [List.append_assoc] using this
  rw [parseHostPort]
  simp only [toList_mk, hsub, Bool.not_true, false_and, Bool.false_eq_true,
    if_false, if_true, ite_true, ite_false, not_true_eq_false]
  rw [parseRequestURI_withPort c sRest host digits hca hsr hh hdall]
  by_cases hm : defaultPortsContains (c :: sRest) = true
  · simp [hm, if_neg hne, hp]
  · simp [hm, if_neg hne]

theorem parseHostPort_schemeless_withPort (host digits : List Char) (p : Int)
    (hh : goodHostCs host = true) (hdall : digits.all isDigitCh = true)
    (hp : parseInt64 digits = some p) :
    parseHostPort ⟨host ++ ':' :: digits⟩ = .ok (host, p, "dax".toList) := by
  obtain ⟨hne, hnc, hns⟩ := goodHostCs_props hh
  have hdigit := List.all_eq_true.mp hdall
  have hnosub : hasSubstr "://".toList (host ++ ':' :: digits) = false := by
    apply no_slash_no_substr
    intro hmem
    rcases List.mem_append.mp hmem with h1 | h1
    · exact hns '/' h1 rfl
    · rcases List.mem_cons.mp h1 with h2 | h2
      · cases h2
      · have := hdigit '/' h2
        simp [isDigitCh] at this
  have hcol : (host ++ ':' :: digits).contains ':' = true := by
    simp [List.contains]
  rw [parseHostPort]
  simp only [toList_mk, hnosub, hcol, Bool.not_false, Bool.not_true,
    and_false, Bool.false_eq_true, if_false, ite_false, ite_true,
    not_false_eq_true, true_and]
  have hlit : "dax://".toList = ('d' :: "ax".toList) ++ "://".toList := by decide
  have hshape : "dax://".toList ++ (host ++ ':' :: digits) =
      ('d' :: "ax".toList) ++ "://".toList ++ host ++ ':' :: digits := by
    rw [hlit]; simp [List.append_assoc]
  rw [hshape]
  rw [parseRequestURI_withPort 'd' "ax".toList host digits (by decide)
    (by decide) hh hdall]
  simp [if_neg hne, hp]
  decide

theorem parseHostPort_ok_scheme (h : String) (host : List Char) (port : Int)
    (scheme : List Char) (hok : parseHostPort h = .ok (host, port, scheme)) :
    defaultPortsContains scheme = true := by
  simp only [parseHostPort] at hok
  repeat' split at hok
  all_goals (try cases hok)
  all_goals simp_all

theorem darkSchemeCases (scheme : List Char)
    (hmem : defaultPortsContains scheme = true) :
    scheme = "dax".toList ∨ scheme = "daxs".toList := by
  simpa [defaultPortsContains] using hmem

theorem no_colon_no_substr (cs : List Char) (h : cs.contains ':' = false) :
    hasSubstr "://".toList cs = false := by
  by_contra hcon
  have hmem := hasSubstr_subset "://".toList cs
    (by revert hcon; cases hasSubstr "://".toList cs <;> simp) ':' (by decide)
  simp [List.contains, List.elem_eq_mem, hmem] at h

/-- A seed string parses with the given scheme. -/
def seedParses (h : String) (scheme : List Char) : Prop :=
  ∃ host port, parseHostPort h = .ok (host, port, scheme)

/-- Once `isEncrypted` is true and at least one seed has been consumed,
any further parsing seed makes the `getHostPorts` loop fail (either the
single-encrypted-endpoint restriction or scheme inconsistency). -/
theorem getHostPortsGo_encrypted_more (h : String) (rest : List String)
    (i : Nat) (out : List (List Char × Int)) (hn host : List Char)
    (port : Int) (scheme : List Char) (hi : 0 < i)
    (hok : parseHostPort h = .ok (host, port, scheme)) :
    ∃ e, getHostPortsGo (h :: rest) i out hn true = .error e := by
  have hi0 : ¬ i = 0 := by omega
  rcases darkSchemeCases scheme (parseHostPort_ok_scheme _ _ _ _ hok)
    with hs | hs <;> subst hs
  · exact ⟨.genericAPIError "InvalidParameter"
      "Inconsistency between the schemes of provided endpoints",
      by simp +decide [getHostPortsGo, hok, hi0]⟩
  · exact ⟨.genericAPIError "InvalidParameter"
      "Only one cluster discovery endpoint may be provided for encrypted cluster",
      by simp +decide [getHostPortsGo, hok, hi, hi0]⟩

/-- With `isEncrypted` still false after at least one seed, a `daxs`
scheme anywhere in the remaining (all-parsing) seeds makes the loop fail
with the scheme-inconsistency error. -/
theorem getHostPortsGo_daxs_rest (hosts : List String)
    (schemes : List (List Char))
    (hf : List.Forall₂ seedParses hosts schemes) :
    "daxs".toList ∈ schemes →
    ∀ (i : Nat) (out : List (List Char × Int)) (hn : List Char), 0 < i →
      ∃ e, getHostPortsGo hosts i out hn false = .error e := by
  induction hf with
  | nil => intro hmem; simp at hmem
  | cons hr hftail ih =>
    rename_i h0 s0 hs ss
    intro hmem i out hn hi
    obtain ⟨host0, port0, hok0⟩ := hr
    have hi0 : ¬ i = 0 := by omega
    rcases darkSchemeCases s0 (parseHostPort_ok_scheme _ _ _ _ hok0)
      with hs0 | hs0 <;> subst hs0
    · have hmem' : "daxs".toList ∈ ss := by
        rcases List.mem_cons.mp hmem with h | h
        · exact absurd h (by decide)
        · exact h
      obtain ⟨e, he⟩ := ih hmem' (i + 1) (out ++ [(host0, port0)]) host0
        (by omega)
      exact ⟨e, by simp +decide [getHostPortsGo, hok0, hi0, he]⟩
    · exact ⟨.genericAPIError "InvalidParameter"
        "Inconsistency between the schemes of provided endpoints",
        by simp +decide [getHostPortsGo, hok0, hi0]⟩

/-- Any all-parsing seed list that contains a `daxs` scheme and more than
one entry is rejected by `getHostPorts`, wherever the `daxs` seed sits. -/
theorem getHostPorts_daxs_multi (hosts : List String)
    (schemes : List (List Char))
    (hf : List.Forall₂ seedParses hosts schemes)
    (hmem : "daxs".toList ∈ schemes) (hlen : 1 < hosts.length) :
    ∃ e, getHostPorts hosts = .error e := by
  cases hf with
  | nil => simp at hlen
  | cons hr hftail =>
    rename_i h0 s0 hs ss
    obtain ⟨host0, port0, hok0⟩ := hr
    rcases darkSchemeCases s0 (parseHostPort_ok_scheme _ _ _ _ hok0)
      with hs0 | hs0 <;> subst hs0
    · have hmem' : "daxs".toList ∈ ss := by
        rcases List.mem_cons.mp hmem with h | h
        · exact absurd h (by decide)
        · exact h
      obtain ⟨e, he⟩ := getHostPortsGo_daxs_rest hs ss hftail hmem'
        1 [(host0, port0)] host0 (by omega)
      exact ⟨e, by simp +decide [getHostPorts, getHostPortsGo, hok0, he]⟩
    · cases hftail with
      | nil => simp at hlen
      | cons hr1 hftail1 =>
        rename_i h1 s1 hs1 ss1
        obtain ⟨host1, port1, hok1⟩ := hr1
        obtain ⟨e, he⟩ := getHostPortsGo_encrypted_more h1 hs1 1
          [(host0, port0)] host0 host1 port1 s1 (by omega) hok1
        refine ⟨e, ?_⟩
        have hstep : getHostPorts (h0 :: h1 :: hs1) =
            getHostPortsGo (h1 :: hs1) 1 [(host0, port0)] host0 true := by
          simp +decide [getHostPorts, getHostPortsGo, hok0]
        rw [hstep, he]

/-- **C8** (amended): `dax://host[:port]` parses with default port 8111 and
`daxs://host[:port]` with default port 9111; a seed with no scheme that does
contain a `':'` gets the `dax` scheme prepended, while EVERY seed containing
no `':'` at all fails parameter validation instead of defaulting; any other
syntactically valid scheme fails parameter validation; a `daxs` seed
followed by any further parsing seed is rejected; a `dax` seed followed by
a `daxs` seed is rejected as scheme-inconsistent; and, universally, every
all-parsing seed list whose schemes mix `dax` and `daxs` — wherever the mix
occurs — and every all-parsing seed list containing a `daxs` scheme with
more than one entry is rejected by `getHostPorts`. -/
theorem c8_endpoint_parsing :
    (∀ host : List Char, goodHostCs host = true →
      parseHostPort ⟨"dax://".toList ++ host⟩ = .ok (host, 8111, "dax".toList) ∧
      parseHostPort ⟨"daxs://".toList ++ host⟩ = .ok (host, 9111, "daxs".toList)) ∧
    (∀ (host digits : List Char) (p : Int), goodHostCs host = true →
        digits.all isDigitCh = true → parseInt64 digits = some p →
      parseHostPort ⟨"dax://".toList ++ host ++ ':' :: digits⟩ =
          .ok (host, p, "dax".toList) ∧
      parseHostPort ⟨"daxs://".toList ++ host ++ ':' :: digits⟩ =
          .ok (host, p, "daxs".toList) ∧
      parseHostPort ⟨host ++ ':' :: digits⟩ = .ok (host, p, "dax".toList)) ∧
    (∀ (c : Char) (sRest host : List Char), c.isAlpha = true →
        sRest.all validSchemeChar = true → goodHostCs host = true →
        defaultPortsContains (c :: sRest) = false →
      parseHostPort ⟨(c :: sRest) ++ "://".toList ++ host⟩ =
        .error (.genericAPIError "InvalidParameter"
          "URL scheme must be one of [dax daxs]")) ∧
    (∀ cs : List Char, cs.contains ':' = false →
      parseHostPort ⟨cs⟩ = .error (.genericAPIError "InvalidParameter"
        ((⟨cs⟩ : String) ++ "Invalid hostport."))) ∧
    (∀ (h1 h2 : String) (rest : List String) (host1 : List Char) (port1 : Int)
        (host2 : List Char) (port2 : Int) (scheme2 : List Char),
        parseHostPort h1 = .ok (host1, port1, "daxs".toList) →
        parseHostPort h2 = .ok (host2, port2, scheme2) →
      ∃ e, getHostPorts (h1 :: h2 :: rest) = .error e) ∧
    (∀ (h1 h2 : String) (rest : List String) (host1 : List Char) (port1 : Int)
        (host2 : List Char) (port2 : Int),
        parseHostPort h1 = .ok (host1, port1, "dax".toList) →
        parseHostPort h2 = .ok (host2, port2, "daxs".toList) →
      getHostPorts (h1 :: h2 :: rest) =
        .error (.genericAPIError "InvalidParameter"
          "Inconsistency between the schemes of provided endpoints")) ∧
    (∀ (hosts : List String) (schemes : List (List Char)),
        List.Forall₂ seedParses hosts schemes →
        "dax".toList ∈ schemes → "daxs".toList ∈ schemes →
      ∃ e, getHostPorts hosts = .error e) ∧
    (∀ (hosts : List String) (schemes : List (List Char)),
        List.Forall₂ seedParses hosts schemes →
        "daxs".toList ∈ schemes → 1 < hosts.length →
      ∃ e, getHostPorts hosts = .error e) := by
  have hlDax : ("dax://".toList : List Char) =
      ('d' :: "ax".toList) ++ "://".toList := by decide
  have hlDaxs : ("daxs://".toList : List Char) =
      ('d' :: "axs".toList) ++ "://".toList := by decide
  refine ⟨?_, ?_, ?_, ?_, ?_, ?_, ?_, ?_⟩
  · intro host hh
    constructor
    · rw [hlDax, parseHostPort_scheme_noPort 'd' "ax".toList host (by decide)
        (by decide) hh]
      simp +decide [defaultPorts]
    · rw [hlDaxs, parseHostPort_scheme_noPort 'd' "axs".toList host (by decide)
        (by decide) hh]
      simp +decide [defaultPorts]
  · intro host digits p hh hdall hp
    refine ⟨?_, ?_, ?_⟩
    · rw [hlDax, parseHostPort_scheme_withPort 'd' "ax".toList host digits p
        (by decide) (by decide) hh hdall hp]
      simp +decide
    · rw [hlDaxs, parseHostPort_scheme_withPort 'd' "axs".toList host digits p
        (by decide) (by decide) hh hdall hp]
      simp +decide
    · exact parseHostPort_schemeless_withPort host digits p hh hdall hp
  · intro c sRest host hca hsr hh hm
    rw [parseHostPort_scheme_noPort c sRest host hca hsr hh]
    simp [hm]
  · intro cs hnc
    have hns := no_colon_no_substr cs hnc
    simp only [parseHostPort, toList_mk, hns, hnc]
    simp
  · intro h1 h2 rest host1 port1 host2 port2 scheme2 hok1 hok2
    have hmem2 := parseHostPort_ok_scheme h2 host2 port2 scheme2 hok2
    rcases darkSchemeCases scheme2 hmem2 with hs2 | hs2 <;> subst hs2
    · refine ⟨.genericAPIError "InvalidParameter"
        "Inconsistency between the schemes of provided endpoints", ?_⟩
      simp +decide [getHostPorts, getHostPortsGo, hok1, hok2]
    · refine ⟨.genericAPIError "InvalidParameter"
        "Only one cluster discovery endpoint may be provided for encrypted cluster", ?_⟩
      simp +decide [getHostPorts, getHostPortsGo, hok1, hok2]
  · intro h1 h2 rest host1 port1 host2 port2 hok1 hok2
    simp +decide [getHostPorts, getHostPortsGo, hok1, hok2]
  · intro hosts schemes hf hdax hdaxs
    have hlen2 : 1 < schemes.length := by
      rcases schemes with _ | ⟨s0, ss⟩
      · simp at hdax
      · rcases ss with _ | ⟨s1, ss1⟩
        · simp at hdax hdaxs
          rw [← hdax] at hdaxs
          exact absurd hdaxs (by decide)
        · simp only [List.length_cons]
          omega
    have hlen : 1 < hosts.length := by
      rw [List.Forall₂.length_eq hf]
      exact hlen2
    exact getHostPorts_daxs_multi hosts schemes hf hdaxs hlen
  · exact fun hosts schemes hf hmem hlen =>
      getHostPorts_daxs_multi hosts schemes hf hmem hlen

/-- **C8 counterexample**: the seed `"localhost"` has no scheme and no
`':'`; instead of defaulting to `dax://localhost`, `parseHostPort` fails
parameter validation, refuting the claim that every schemeless seed gets
the `dax://` default. -/
theorem c8_counterexample :
    parseHostPort "localhost" =
      .error (.genericAPIError "InvalidParameter"
        ("localhost" ++ "Invalid hostport.")) ∧
    parseHostPort "dax://localhost" =
      .ok ("localhost".toList, 8111, "dax".toList) := by
  constructor <;> rfl

theorem c8_endpoint_parsing_witness :
    parseHostPort ⟨"dax://".toList ++ "h".toList⟩ =
      .ok ("h".toList, 8111, "dax".toList) ∧
    parseHostPort ⟨"h".toList ++ ':' :: "123".toList⟩ =
      .ok ("h".toList, 123, "dax".toList) ∧
    (∃ e, getHostPorts [⟨"daxs://".toList ++ "h".toList⟩,
        ⟨"daxs://".toList ++ "g".toList⟩] = .error e) ∧
    (∃ e, getHostPorts [⟨"dax://".toList ++ "a".toList⟩,
        ⟨"dax://".toList ++ "b".toList⟩,
        ⟨"daxs://".toList ++ "c".toList⟩] = .error e) :=
  ⟨(c8_endpoint_parsing.1 "h".toList (by decide)).1,
   (c8_endpoint_parsing.2.1 "h".toList "123".toList 123 (by decide) (by decide)
      (by simp [parseInt64, parseSign, natFromDigits, digitVal, isDigitCh])).2.2,
   c8_endpoint_parsing.2.2.2.2.1 _ _ [] "h".toList 9111 "g".toList 9111
     "daxs".toList
     ((c8_endpoint_parsing.1 "h".toList (by decide)).2)
     ((c8_endpoint_parsing.1 "g".toList (by decide)).2),
   c8_endpoint_parsing.2.2.2.2.2.2.1 _
     ["dax".toList, "dax".toList, "daxs".toList]
     (List.Forall₂.cons
       ⟨"a".toList, 8111, (c8_endpoint_parsing.1 "a".toList (by decide)).1⟩
       (List.Forall₂.cons
         ⟨"b".toList, 8111, (c8_endpoint_parsing.1 "b".toList (by decide)).1⟩
         (List.Forall₂.cons
           ⟨"c".toList, 9111, (c8_endpoint_parsing.1 "c".toList (by decide)).2⟩
           List.Forall₂.nil)))
     (by decide) (by decide)⟩

/-! ## Attribute-list fast paths (`defineAttributeListId`,
`defineAttributeList`, health_status.go/single.go) -/

def emptyAttributeListId : Int := 1

/-- The wire behaviour `executeWithRetries` would give each encoded
request, so the model can count wire executions. -/
structure DefineWire where
  listIdResult : List String → Except DaxErr Int
  listResult : Int → Except DaxErr (List String)

/-- `SingleDaxClient.defineAttributeListId`: result paired with the number
of `executeWithRetries` calls made. -/
def defineAttributeListId (w : DefineWire) (attrNames : List String) :
    Except DaxErr Int × Nat :=
  if attrNames.length = 0 then (.ok emptyAttributeListId, 0)
  else
    match w.listIdResult attrNames with
    | .error e => (.error e, 1)
    | .ok out => (.ok out, 1)

/-- `SingleDaxClient.defineAttributeList`: result paired with the number
of `executeWithRetries` calls made. -/
def defineAttributeList (w : DefineWire) (id : Int) :
    Except DaxErr (List String) × Nat :=
  if id = emptyAttributeListId then (.ok [], 0)
  else
    match w.listResult id with
    | .error e => (.error e, 1)
    | .ok out => (.ok out, 1)

/-- **C9**: the empty attribute list is bound to the reserved id 1:
`defineAttributeListId []` returns `emptyAttributeListId = 1` with no error
and zero wire executions, and `defineAttributeList 1` returns the empty
name list with no error and zero wire executions, whatever the wire would
have answered. -/
theorem c9_empty_attribute_list :
    emptyAttributeListId = 1 ∧
    (∀ w : DefineWire, defineAttributeListId w [] = (.ok emptyAttributeListId, 0)) ∧
    (∀ w : DefineWire,
      defineAttributeList w emptyAttributeListId = (.ok [], 0)) := by
  refine ⟨rfl, fun w => rfl, fun w => rfl⟩

/-! ## Roster updates (`cluster.update`, `cluster.onHealthCheckFailed`,
cluster.go lines 606–710, 770–774).  Host-ports and clients are numbered;
`build` stands for `newSingleClient` (`none` = build error); each
transition returns the new state together with the list of clients handed
to `closeClient` and actually closed. -/

structure ClusterState where
  closed : Bool
  active : List (Nat × Nat)
  routes : List Nat
deriving Repr, DecidableEq

/-- `cluster.closeClient`: a nil `DaxAPI` does not satisfy the `io.Closer`
type assertion, so closing it is a no-op. -/
def closeClient (client : Option Nat) : List Nat :=
  match client with
  | some cli => [cli]
  | none => []

/-- The endpoint loop of `cluster.update`: for each endpoint reuse the
existing client or build a new one, breaking with
`shouldUpdateRoutes = false` on the first build failure.  Returns
(shouldUpdateRoutes, newActive, newRoutes, newCliCfg). -/
def clusterBuildGo (build : Nat → Option Nat) (oldActive : List (Nat × Nat)) :
    List Nat → List (Nat × Nat) → List Nat → List Nat →
    Bool × List (Nat × Nat) × List Nat × List Nat
  | [], newActive, newRoutes, newCli => (true, newActive, newRoutes, newCli)
  | ep :: rest, newActive, newRoutes, newCli =>
    match oldActive.lookup ep with
    | some cli =>
      clusterBuildGo build oldActive rest (newActive ++ [(ep, cli)])
        (newRoutes ++ [cli]) newCli
    | none =>
      match build ep with
      | none => (false, newActive, newRoutes, newCli)
      | some cli =>
        clusterBuildGo build oldActive rest (newActive ++ [(ep, cli)])
          (newRoutes ++ [cli]) (newCli ++ [cli])

/-- `cluster.update(config)`: collect the clients missing from the new
roster into `toClose`, then run the build loop; on success install the new
active map and routes, on failure keep the old state and add the newly
built clients to `toClose`.  The closing goroutine closes every element of
`toClose`. -/
def clusterUpdate (build : Nat → Option Nat) (c : ClusterState)
    (config : List Nat) : ClusterState × List Nat :=
  if c.closed then (c, [])
  else
    let toClose := (c.active.filter fun p => ¬ config.contains p.1).map (·.2)
    match clusterBuildGo build c.active config [] [] [] with
    | (true, newActive, newRoutes, _) =>
      ({ c with active := newActive, routes := newRoutes }, toClose)
    | (false, _, _, newCli) => (c, toClose ++ newCli)

/-- `cluster.onHealthCheckFailed(hp)`: replace the client for a known
host-port (closing the old one) when the rebuild succeeds; keep the old
client on rebuild failure; for an unknown host-port `oldClientConfig` is
the zero value, so `closeClient` receives a nil client. -/
def onHealthCheckFailed (build : Nat → Option Nat) (c : ClusterState)
    (hp : Nat) : ClusterState × List Nat :=
  match c.active.lookup hp with
  | some oldCli =>
    match build hp with
    | some cli =>
      let newActive := c.active.map fun p => if p.1 = hp then (hp, cli) else p
      ({ c with active := newActive, routes := newActive.map (·.2) },
        closeClient (some oldCli))
    | none => (c, [])
  | none => (c, closeClient none)

def c2State : ClusterState :=
  { closed := false, active := [(1, 101), (2, 102)], routes := [101, 102] }

def c2Build : Nat → Option Nat := fun ep => if ep = 3 then some 203 else none

/-- **C2** (code bug): with active clients A = (1, 101) and B = (2, 102),
roster `[1, 3, 4]`, the build of endpoint 3 succeeding (client 203) and
the build of endpoint 4 failing, `cluster.update` leaves the active map
and routes unchanged and closes the newly built client 203 — but it also
closes client 102, which is still in the active map (endpoint B of the
spec's scenario 3, which the spec says is NOT closed): `toClose` already
holds the roster-removed clients before the build loop runs, and the
failure path closes all of `toClose`, not just the new clients. -/
theorem c2_update_failure_closes_live_client :
    clusterUpdate c2Build c2State [1, 3, 4] = (c2State, [102, 203]) ∧
    c2State.active.lookup 2 = some 102 := by
  constructor
  · simp +decide [clusterUpdate, clusterBuildGo, c2Build, c2State]
  · rfl

/-- **C10**: `cluster.onHealthCheckFailed` on a host-port absent from the
active map leaves the state (active map and routes) unchanged and closes
no client: `shouldCloseOldClient` stays true, but the zero-value
`oldClientConfig.client` is a nil interface, which fails the `io.Closer`
assertion inside `closeClient`. -/
theorem c10_health_check_missing_host (build : Nat → Option Nat)
    (c : ClusterState) (hp : Nat) (h : c.active.lookup hp = none) :
    onHealthCheckFailed build c hp = (c, []) := by
  simp [onHealthCheckFailed, h, closeClient]

theorem c10_health_check_missing_host_witness :
    ([((1 : Nat), (101 : Nat))].lookup (7 : Nat) = none) ∧
    onHealthCheckFailed (fun _ => none)
        { closed := false, active := [(1, 101)], routes := [101] } 7 =
      ({ closed := false, active := [(1, 101)], routes := [101] }, []) :=
  ⟨by decide,
   c10_health_check_missing_host (fun _ => none)
     { closed := false, active := [(1, 101)], routes := [101] } 7 (by decide)⟩
